import Mathlib

/-!
# Helios restaurant simulation — verification of spec claims

Shallow embedding of the agent-based restaurant simulation
(`src/App.tsx`, `src/components/Scene/Restaurant.tsx`).  Numeric values are
modelled as rationals (`ℚ`) where the source only performs field arithmetic,
and as reals (`ℝ`) where square roots (`Math.hypot`) appear.  JavaScript
values that may be missing or non-finite are modelled as `Option` values:
`none` stands for a missing/invalid field, `some q` for a finite number.
-/

namespace Helios

/-- `clamp` from `App.tsx` / `Restaurant.tsx`: `Math.min(Math.max(v, min), max)`. -/
def clampQ (v lo hi : ℚ) : ℚ := min (max v lo) hi

/-! ## Configuration model and normalization (`src/App.tsx`) -/

/-- The `Side` union type of `App.tsx`. -/
inductive Side
  | left | right | back | front
deriving DecidableEq

/-- `Config['avoidance']['radius']` — per-pair avoidance radii. -/
structure AvoidRadius where
  humanHuman : ℚ
  humanStaff : ℚ
  humanObstacle : ℚ
  staffHuman : ℚ
  staffObstacle : ℚ
deriving DecidableEq

/-- `Config['avoidance']`. -/
structure Avoidance where
  radius : AvoidRadius
deriving DecidableEq

/-- `Config['repulsion']` — per-pair repulsion coefficients. -/
structure Repulsion where
  humanHuman : ℚ
  humanStaff : ℚ
  humanObstacle : ℚ
  staffHuman : ℚ
  staffObstacle : ℚ
deriving DecidableEq

/-- The fully-populated `Config` record of `App.tsx`. -/
structure Config where
  width : ℚ
  depth : ℚ
  height : ℚ
  wallT : ℚ
  doorWidth : ℚ
  doorHeight : ℚ
  table4Count : ℚ
  table2Count : ℚ
  kitchenSide : Side
  toiletSide : Side
  incoming : ℚ
  toiletProb : ℚ
  avgSpend : ℚ
  staffCount : ℚ
  staffServiceMargin : ℚ
  thresholdTablesPerStaff : ℚ
  basePrice : ℚ
  currentPrice : ℚ
  priceElasticity : ℚ
  baseStaySec : ℚ
  timeLimitOn : Bool
  timeCapSec : ℚ
  timeDiscountPct : ℚ
  avoidance : Avoidance
  repulsion : Repulsion
  timeLimitSec : ℚ
deriving DecidableEq

/-- Raw (possibly missing / non-finite) nested avoidance radii. -/
structure RawAvoidRadius where
  humanHuman : Option ℚ
  humanStaff : Option ℚ
  humanObstacle : Option ℚ
  staffHuman : Option ℚ
  staffObstacle : Option ℚ

/-- Raw avoidance record (`cfg.avoidance?.radius?...`). -/
structure RawAvoidance where
  radius : Option RawAvoidRadius

/-- Raw repulsion record. -/
structure RawRepulsion where
  humanHuman : Option ℚ
  humanStaff : Option ℚ
  humanObstacle : Option ℚ
  staffHuman : Option ℚ
  staffObstacle : Option ℚ

/-- A raw configuration as restored from persistence (`Partial<Config> | any`):
every field may be missing or non-numeric (`none`). -/
structure RawConfig where
  width : Option ℚ
  depth : Option ℚ
  height : Option ℚ
  wallT : Option ℚ
  doorWidth : Option ℚ
  doorHeight : Option ℚ
  table4Count : Option ℚ
  table2Count : Option ℚ
  kitchenSide : Option Side
  toiletSide : Option Side
  incoming : Option ℚ
  toiletProb : Option ℚ
  avgSpend : Option ℚ
  staffCount : Option ℚ
  staffServiceMargin : Option ℚ
  thresholdTablesPerStaff : Option ℚ
  basePrice : Option ℚ
  currentPrice : Option ℚ
  priceElasticity : Option ℚ
  baseStaySec : Option ℚ
  timeLimitOn : Option Bool
  timeCapSec : Option ℚ
  timeDiscountPct : Option ℚ
  avoidance : Option RawAvoidance
  repulsion : Option RawRepulsion
  timeLimitSec : Option ℚ

/-- `toNumber` of `App.tsx`: a finite numeric value passes through, anything
else falls back.  (The `warnKeys` accumulation only feeds the one-shot
diagnostic log and does not affect the returned value.) -/
def toNumber (v : Option ℚ) (fallback : ℚ) : ℚ := v.getD fallback

/-- `nonNegative` of `App.tsx`: `Math.max(0, toNumber(v, fallback))`. -/
def nonNegative (v : Option ℚ) (fallback : ℚ) : ℚ := max 0 (toNumber v fallback)

/-- `normalizeSide` of `App.tsx`. -/
def normalizeSide (v : Option Side) (fallback : Side) : Side := v.getD fallback

/-- `DEFAULT_CONFIG` of `App.tsx`. -/
def DEFAULT_CONFIG : Config where
  width := 8
  depth := 10
  height := 2.6
  wallT := 0.2
  doorWidth := 1.2
  doorHeight := 2.0
  table4Count := 0
  table2Count := 0
  kitchenSide := .right
  toiletSide := .left
  incoming := 0
  toiletProb := 0.51
  avgSpend := 1500
  staffCount := 0
  staffServiceMargin := 0.6
  thresholdTablesPerStaff := 4.0
  basePrice := 1500
  currentPrice := 1500
  priceElasticity := -1.0
  baseStaySec := 70
  timeLimitOn := false
  timeCapSec := 90
  timeDiscountPct := 10
  avoidance := ⟨⟨0.9, 1.0, 1.1, 1.1, 1.3⟩⟩
  repulsion := ⟨0.8, 1.0, 1.2, 1.5, 2.0⟩
  timeLimitSec := 0

/-- `normalizeConfig` of `App.tsx` (lines 153–343): clamps every numeric field
to its valid range and backfills missing nested fields from `DEFAULT_CONFIG`.
Unknown extra properties carried by the object spread do not affect the fields
below and are not modelled. -/
def normalizeConfig (raw : RawConfig) : Config where
  width := nonNegative raw.width DEFAULT_CONFIG.width
  depth := nonNegative raw.depth DEFAULT_CONFIG.depth
  height := nonNegative raw.height DEFAULT_CONFIG.height
  wallT := nonNegative raw.wallT DEFAULT_CONFIG.wallT
  doorWidth := nonNegative raw.doorWidth DEFAULT_CONFIG.doorWidth
  doorHeight := nonNegative raw.doorHeight DEFAULT_CONFIG.doorHeight
  table4Count := nonNegative raw.table4Count DEFAULT_CONFIG.table4Count
  table2Count := nonNegative raw.table2Count DEFAULT_CONFIG.table2Count
  kitchenSide := normalizeSide raw.kitchenSide DEFAULT_CONFIG.kitchenSide
  toiletSide := normalizeSide raw.toiletSide DEFAULT_CONFIG.toiletSide
  incoming := nonNegative raw.incoming DEFAULT_CONFIG.incoming
  toiletProb := clampQ (toNumber raw.toiletProb DEFAULT_CONFIG.toiletProb) 0 1
  avgSpend := nonNegative raw.avgSpend DEFAULT_CONFIG.avgSpend
  staffCount := nonNegative raw.staffCount DEFAULT_CONFIG.staffCount
  staffServiceMargin :=
    nonNegative raw.staffServiceMargin DEFAULT_CONFIG.staffServiceMargin
  thresholdTablesPerStaff :=
    nonNegative raw.thresholdTablesPerStaff DEFAULT_CONFIG.thresholdTablesPerStaff
  basePrice := nonNegative raw.basePrice DEFAULT_CONFIG.basePrice
  currentPrice := nonNegative raw.currentPrice DEFAULT_CONFIG.currentPrice
  priceElasticity := toNumber raw.priceElasticity DEFAULT_CONFIG.priceElasticity
  baseStaySec := nonNegative raw.baseStaySec DEFAULT_CONFIG.baseStaySec
  timeLimitOn := raw.timeLimitOn.getD DEFAULT_CONFIG.timeLimitOn
  timeCapSec := nonNegative raw.timeCapSec DEFAULT_CONFIG.timeCapSec
  timeDiscountPct := nonNegative raw.timeDiscountPct DEFAULT_CONFIG.timeDiscountPct
  avoidance :=
    ⟨{ humanHuman :=
        nonNegative ((raw.avoidance.bind (·.radius)).bind (·.humanHuman))
          DEFAULT_CONFIG.avoidance.radius.humanHuman
       humanStaff :=
        nonNegative ((raw.avoidance.bind (·.radius)).bind (·.humanStaff))
          DEFAULT_CONFIG.avoidance.radius.humanStaff
       humanObstacle :=
        nonNegative ((raw.avoidance.bind (·.radius)).bind (·.humanObstacle))
          DEFAULT_CONFIG.avoidance.radius.humanObstacle
       staffHuman :=
        nonNegative ((raw.avoidance.bind (·.radius)).bind (·.staffHuman))
          DEFAULT_CONFIG.avoidance.radius.staffHuman
       staffObstacle :=
        nonNegative ((raw.avoidance.bind (·.radius)).bind (·.staffObstacle))
          DEFAULT_CONFIG.avoidance.radius.staffObstacle }⟩
  repulsion :=
    { humanHuman :=
        nonNegative (raw.repulsion.bind (·.humanHuman))
          DEFAULT_CONFIG.repulsion.humanHuman
      humanStaff :=
        nonNegative (raw.repulsion.bind (·.humanStaff))
          DEFAULT_CONFIG.repulsion.humanStaff
      humanObstacle :=
        nonNegative (raw.repulsion.bind (·.humanObstacle))
          DEFAULT_CONFIG.repulsion.humanObstacle
      staffHuman :=
        nonNegative (raw.repulsion.bind (·.staffHuman))
          DEFAULT_CONFIG.repulsion.staffHuman
      staffObstacle :=
        nonNegative (raw.repulsion.bind (·.staffObstacle))
          DEFAULT_CONFIG.repulsion.staffObstacle }
  timeLimitSec := nonNegative raw.timeLimitSec DEFAULT_CONFIG.timeLimitSec

/-- Re-injection of a normalized `Config` as a raw value (every field present
and finite), as happens when `normalizeConfig` is applied to its own output. -/
def Config.toRaw (c : Config) : RawConfig where
  width := some c.width
  depth := some c.depth
  height := some c.height
  wallT := some c.wallT
  doorWidth := some c.doorWidth
  doorHeight := some c.doorHeight
  table4Count := some c.table4Count
  table2Count := some c.table2Count
  kitchenSide := some c.kitchenSide
  toiletSide := some c.toiletSide
  incoming := some c.incoming
  toiletProb := some c.toiletProb
  avgSpend := some c.avgSpend
  staffCount := some c.staffCount
  staffServiceMargin := some c.staffServiceMargin
  thresholdTablesPerStaff := some c.thresholdTablesPerStaff
  basePrice := some c.basePrice
  currentPrice := some c.currentPrice
  priceElasticity := some c.priceElasticity
  baseStaySec := some c.baseStaySec
  timeLimitOn := some c.timeLimitOn
  timeCapSec := some c.timeCapSec
  timeDiscountPct := some c.timeDiscountPct
  avoidance := some ⟨some ⟨some c.avoidance.radius.humanHuman,
    some c.avoidance.radius.humanStaff, some c.avoidance.radius.humanObstacle,
    some c.avoidance.radius.staffHuman, some c.avoidance.radius.staffObstacle⟩⟩
  repulsion := some ⟨some c.repulsion.humanHuman, some c.repulsion.humanStaff,
    some c.repulsion.humanObstacle, some c.repulsion.staffHuman,
    some c.repulsion.staffObstacle⟩
  timeLimitSec := some c.timeLimitSec

@[simp] theorem nonNegative_some_idem (a : Option ℚ) (fb fb' : ℚ) :
    nonNegative (some (nonNegative a fb)) fb' = nonNegative a fb := by
  simp [nonNegative, toNumber, ← max_assoc]

theorem clampQ_idem (v lo hi : ℚ) (h : lo ≤ hi) :
    clampQ (clampQ v lo hi) lo hi = clampQ v lo hi := by
  unfold clampQ
  have h1 : lo ≤ min (max v lo) hi := le_min (le_max_right v lo) h
  rw [max_eq_left h1, min_assoc, min_self]

@[simp] theorem toNumber_some (a fb : ℚ) : toNumber (some a) fb = a := rfl

@[simp] theorem clampQ01_idem (v : ℚ) :
    clampQ (clampQ v 0 1) 0 1 = clampQ v 0 1 :=
  clampQ_idem v 0 1 (by norm_num)

/-- **C7.** Configuration normalization is idempotent: feeding the output of
`normalizeConfig` back through `normalizeConfig` returns an identical value. -/
theorem normalizeConfig_idempotent (raw : RawConfig) :
    normalizeConfig (Config.toRaw (normalizeConfig raw)) = normalizeConfig raw := by
  simp only [normalizeConfig, Config.toRaw, normalizeSide, Option.getD_some,
    Option.some_bind, nonNegative_some_idem, toNumber_some, clampQ01_idem]

/-! ## Service coefficient and seated stay duration (C6)

`App.tsx` lines 411–421 compute the load-dependent service coefficient;
`Restaurant.tsx` (`People`, lines 1108–1112) computes the seated stay from it.
Rational arithmetic never produces non-finite values, so the
`Number.isFinite(rawServiceCoef)` fallback branch of the source is vacuous
here. -/

/-- `rawServiceCoef` of `App.tsx`:
`load = activeTables / max(1, staffCount)`;
`load <= threshold ? 1.0 : 1.0 + 0.25 * (load - threshold)`. -/
def serviceCoefOf (activeTables staffCount threshold : ℚ) : ℚ :=
  let staffForLoad := max 1 staffCount
  let load := activeTables / staffForLoad
  if load ≤ threshold then 1 else 1 + (1/4) * (load - threshold)

/-- Seated stay duration from the `toSeat` arrival branch of `People`
(`Restaurant.tsx` lines 1108–1112): `leaveAt = now + max(5, staySec)` where
`staySec = timeLimitOn ? min(base*coef, max(0,timeCapSec)) : base*coef` and
`base = max(1, baseStaySec)`. -/
def stayDurationSec (baseStaySec serviceCoef timeCapSec : ℚ)
    (timeLimitOn : Bool) : ℚ :=
  let base := max 1 baseStaySec
  let rawStay := base * serviceCoef
  let capStay := max 0 timeCapSec
  let staySec := if timeLimitOn then min rawStay capStay else rawStay
  max 5 staySec

/-- **C6 counterexample.** With `baseStaySec = 2`, one staff member, no active
tables and the time limit off, the service coefficient is 1 but the customer
stays seated for 5 seconds, not `baseStaySec * coefficient = 2`: the claim
omits the 5-second floor applied by `leaveAt = now + Math.max(5, staySec)`. -/
theorem c6_stay_floor_counterexample :
    serviceCoefOf 0 1 4 = 1 ∧
    stayDurationSec 2 (serviceCoefOf 0 1 4) 90 false = 5 ∧
    (2 : ℚ) * serviceCoefOf 0 1 4 ≠ 5 := by
  refine ⟨?_, ?_, ?_⟩ <;> norm_num [serviceCoefOf, stayDurationSec]

/-- **C6 (amended).** For `staffCount ≥ 1` (so the code's `max(1, staffCount)`
guard is inert) and `baseStaySec ≥ 1`: the service coefficient is exactly 1
when load ≤ threshold and exactly `1 + 0.25·Δ` when load exceeds the threshold
by `Δ`; the seated stay is `baseStaySec · coefficient`, capped at
`max 0 timeCapSec` when the time-limit toggle is on, and floored at 5 seconds
in every case. -/
theorem c6_serviceCoef_and_stay
    (activeTables staffCount threshold baseStaySec timeCapSec coef : ℚ)
    (hstaff : 1 ≤ staffCount) (hbase : 1 ≤ baseStaySec)
    (hcoef : coef = serviceCoefOf activeTables staffCount threshold) :
    (activeTables / staffCount ≤ threshold → coef = 1) ∧
    (threshold < activeTables / staffCount →
      coef = 1 + (activeTables / staffCount - threshold) / 4) ∧
    stayDurationSec baseStaySec coef timeCapSec true
      = max 5 (min (baseStaySec * coef) (max 0 timeCapSec)) ∧
    stayDurationSec baseStaySec coef timeCapSec false
      = max 5 (baseStaySec * coef) := by
  have hm : max 1 staffCount = staffCount := max_eq_right hstaff
  have hb : max 1 baseStaySec = baseStaySec := max_eq_right hbase
  subst hcoef
  refine ⟨?_, ?_, ?_, ?_⟩
  · intro hle
    simp only [serviceCoefOf, hm, if_pos hle]
  · intro hgt
    simp only [serviceCoefOf, hm, if_neg (not_le.mpr hgt)]
    ring
  · simp [stayDurationSec, hb]
  · simp [stayDurationSec, hb]

theorem c6_serviceCoef_and_stay_witness :
    serviceCoefOf 6 1 4 = 1 + ((6 : ℚ) / 1 - 4) / 4 ∧
    stayDurationSec 70 (serviceCoefOf 6 1 4) 90 false
      = max 5 (70 * serviceCoefOf 6 1 4) := by
  have h := c6_serviceCoef_and_stay 6 1 4 70 90 (serviceCoefOf 6 1 4)
    (by norm_num) (by norm_num) rfl
  exact ⟨h.2.1 (by norm_num), h.2.2.2⟩

/-! ## Restroom-trip scheduling (C3, C4)

From the `toSeat` arrival branch of `People` (`Restaurant.tsx`, lines
1117–1131). -/

/-- `wantWC` of `People` (line 1121): `Math.random() < 0.51` with the draw `u`
modelling `Math.random()`.  The threshold is the hard-coded constant `0.51`;
`cfg.toiletProb` is not consulted anywhere in the simulation. -/
def wantWC (u : ℚ) : Bool := u < 0.51

/-- The roll the claim (and §4.2 of the spec) describes: threshold equal to
the configured `cfg.toiletProb`.  Stated here only for comparison with
`wantWC`. -/
def wantWCClaimed (toiletProb u : ℚ) : Bool := u < toiletProb

/-- **C3.** Failing input: `toiletProb = 0` (restroom visits disabled) and
random draw `u = 0.3`.  The code still elects a restroom visit because line
1121 hard-codes the threshold `0.51` and never reads `cfg.toiletProb`, even
though the control panel edits that field and `normalizeConfig` clamps it:
the config round-trips `toiletProb = 0` intact, yet the roll ignores it. -/
theorem c3_toiletProb_ignored :
    wantWC 0.3 = true ∧
    wantWCClaimed 0 0.3 = false ∧
    clampQ (toNumber (some 0) DEFAULT_CONFIG.toiletProb) 0 1 = 0 := by
  refine ⟨?_, ?_, by norm_num [clampQ, toNumber]⟩
  · simp only [wantWC, decide_eq_true_eq]
    norm_num
  · simp only [wantWCClaimed, decide_eq_false_iff_not]
    norm_num

/-- `depart` of the restroom-trip scheduler (lines 1123–1128):
`clamp(now + span*0.5, now + 5, leaveAt - 12)` where `span = leaveAt - now`;
only evaluated when `span > 12`. -/
def wcDepartAt (now leaveAt : ℚ) : ℚ :=
  let span := leaveAt - now
  clampQ (now + span * (1/2)) (now + 5) (leaveAt - 12)

/-- **C4 counterexample.** With `now = 0` and `leaveAt = 14` the remaining
span `14` exceeds the 12-second margin, so a trip is scheduled, yet
`wcAt = clamp(7, 5, 2) = 2 < now + 5`: JavaScript's
`Math.min(Math.max(v, lo), hi)` returns `hi` when `lo > hi`, so the claimed
lower bound fails whenever `12 < span < 17`. -/
theorem c4_lower_bound_counterexample :
    (12 : ℚ) < 14 - 0 ∧
    wcDepartAt 0 14 = 2 ∧
    ¬ ((0 : ℚ) + 5 ≤ wcDepartAt 0 14) := by
  norm_num [wcDepartAt, clampQ]

/-- **C4 (amended).** Whenever a restroom trip is scheduled
(`span = leaveAt - now > 12`), its start time satisfies
`wcAt ≤ leaveAt - 12`; the claimed lower bound `wcAt ≥ now + 5` additionally
holds whenever the span is at least 17 seconds (for spans in `(12, 17)` the
upper clamp bound wins and `wcAt = leaveAt - 12 < now + 5`). -/
theorem c4_wcAt_bounds (now leaveAt : ℚ) (_hspan : 12 < leaveAt - now) :
    wcDepartAt now leaveAt ≤ leaveAt - 12 ∧
    (17 ≤ leaveAt - now → now + 5 ≤ wcDepartAt now leaveAt) := by
  unfold wcDepartAt clampQ
  constructor
  · exact min_le_right _ _
  · intro h17
    exact le_min (le_max_right _ _) (by linarith)

theorem c4_wcAt_bounds_witness :
    wcDepartAt 0 20 ≤ 20 - 12 ∧ (0 : ℚ) + 5 ≤ wcDepartAt 0 20 := by
  have h := c4_wcAt_bounds 0 20 (by norm_num)
  exact ⟨h.1, h.2 (by norm_num)⟩

/-! ## Staff agent pool (`Restaurant.tsx`, `Staff`) -/

/-- `StaffPhase` union type (line 1369). -/
inductive StaffPhase
  | IDLE | GO_TO_TABLE | SERVING | RETURNING | EXITING | DESPAWN
deriving DecidableEq

/-- `StaffAgent` record (lines 1370–1390).  Optional JS fields default to
`undefined`, modelled as `Option`; the cumulative time counters are created
as 0 and always read through `|| 0`, modelled as plain rationals.  The
untyped scratch fields `_wp`, `_stuck`, `_lastReplan`, `_replanAttempts`
belong to the waypoint replanner and are not needed by the claims below. -/
structure StaffAgent where
  id : ℕ
  pos : ℚ × ℚ
  vel : ℚ × ℚ
  phase : StaffPhase
  target : ℚ × ℚ
  since : ℚ
  tableId : ℤ
  idleSeconds : ℚ
  atTableSec : ℚ
  tableCenter : Option (ℚ × ℚ)
  servingTargetTableId : Option ℤ
  servingTargetSpot : Option (ℚ × ℚ)
  serviceSpots : Option ((ℚ × ℚ) × (ℚ × ℚ))
  activeSpot : Option ℕ
  lastDist : Option ℚ
  lastProgressTime : Option ℚ
  jittered : Bool
  totalTimeSec : ℚ
  busyTimeSec : ℚ
deriving DecidableEq

/-- The agent literal pushed by the spawn loop (lines 1709–1721): a fresh
`IDLE` agent at the kitchen point with zero velocity and no associations. -/
def mkIdleStaff (id : ℕ) (kitchen : ℚ × ℚ) (now : ℚ) : StaffAgent where
  id := id
  pos := kitchen
  vel := (0, 0)
  phase := .IDLE
  target := kitchen
  since := now
  tableId := -1
  idleSeconds := 0
  atTableSec := 0
  tableCenter := none
  servingTargetTableId := none
  servingTargetSpot := none
  serviceSpots := none
  activeSpot := none
  lastDist := none
  lastProgressTime := none
  jittered := false
  totalTimeSec := 0
  busyTimeSec := 0

/-- The spawn loop (lines 1708–1722): `while (agents.length < staffCount)`
push a fresh idle agent with the next id. -/
def spawnToTarget (pool : List StaffAgent) (target : ℕ) (kitchen : ℚ × ℚ)
    (now : ℚ) (nextId : ℕ) : List StaffAgent :=
  pool ++ (List.range (target - pool.length)).map
    (fun i => mkIdleStaff (nextId + i) kitchen now)

/-- One step of the shrink loop (lines 1724–1728):
`findIndex(phase === 'IDLE')` followed by `splice(idx, 1)`; `none` when no
agent is idle (the loop `break`s). -/
def removeFirstIdle : List StaffAgent → Option (List StaffAgent)
  | [] => none
  | a :: rest =>
    if a.phase = .IDLE then some rest
    else (removeFirstIdle rest).map (a :: ·)

theorem removeFirstIdle_length :
    ∀ {pool p : List StaffAgent}, removeFirstIdle pool = some p →
      p.length + 1 = pool.length := by
  intro pool
  induction pool with
  | nil => intro p h; simp [removeFirstIdle] at h
  | cons a rest ih =>
    intro p h
    by_cases ha : a.phase = .IDLE
    · simp [removeFirstIdle, ha] at h
      simp [← h]
    · simp [removeFirstIdle, ha] at h
      obtain ⟨q, hq, rfl⟩ := h
      simp [← ih hq]

/-- Number of `IDLE` agents in the pool. -/
def idleCount (pool : List StaffAgent) : ℕ :=
  pool.countP (fun a => decide (a.phase = .IDLE))

/-- The shrink loop (lines 1724–1728), with explicit fuel: the source's
`while (agents.length > staffCount)` removes one idle agent per iteration and
`break`s when none remains, so it performs at most `pool.length` iterations;
running the fueled version with `fuel = pool.length` is exactly that loop. -/
def shrinkAux : ℕ → List StaffAgent → ℕ → List StaffAgent
  | 0, pool, _ => pool
  | fuel + 1, pool, target =>
    if pool.length > target then
      match removeFirstIdle pool with
      | none => pool
      | some p => shrinkAux fuel p target
    else pool

/-- The shrink loop entry point. -/
def shrinkToTarget (pool : List StaffAgent) (target : ℕ) : List StaffAgent :=
  shrinkAux pool.length pool target

/-- Per-tick pool adjustment (lines 1707–1728): spawn up to the target, then
shrink down to the target by removing idle agents only. -/
def adjustStaffPool (pool : List StaffAgent) (target : ℕ) (kitchen : ℚ × ℚ)
    (now : ℚ) (nextId : ℕ) : List StaffAgent :=
  shrinkToTarget (spawnToTarget pool target kitchen now nextId) target

theorem removeFirstIdle_none_iff {pool : List StaffAgent} :
    removeFirstIdle pool = none ↔ ∀ a ∈ pool, a.phase ≠ .IDLE := by
  induction pool with
  | nil => simp [removeFirstIdle]
  | cons a rest ih =>
    by_cases ha : a.phase = .IDLE
    · simp [removeFirstIdle, ha]
    · simp [removeFirstIdle, ha, ih]

theorem removeFirstIdle_mem {pool p : List StaffAgent}
    (h : removeFirstIdle pool = some p) :
    ∀ a ∈ pool, a.phase ≠ .IDLE → a ∈ p := by
  induction pool generalizing p with
  | nil => simp [removeFirstIdle] at h
  | cons b rest ih =>
    by_cases hb : b.phase = .IDLE
    · simp [removeFirstIdle, hb] at h
      subst h
      intro a ha hna
      rcases List.mem_cons.mp ha with rfl | hmem
      · exact absurd hb hna
      · exact hmem
    · simp [removeFirstIdle, hb] at h
      obtain ⟨q, hq, rfl⟩ := h
      intro a ha hna
      rcases List.mem_cons.mp ha with rfl | hmem
      · exact List.mem_cons_self _ _
      · exact List.mem_cons_of_mem _ (ih hq a hmem hna)

theorem removeFirstIdle_idleCount {pool p : List StaffAgent}
    (h : removeFirstIdle pool = some p) :
    idleCount p + 1 = idleCount pool := by
  induction pool generalizing p with
  | nil => simp [removeFirstIdle] at h
  | cons b rest ih =>
    by_cases hb : b.phase = .IDLE
    · simp [removeFirstIdle, hb] at h
      subst h
      simp [idleCount, List.countP_cons, hb]
    · simp [removeFirstIdle, hb] at h
      obtain ⟨q, hq, rfl⟩ := h
      simp [idleCount, List.countP_cons, hb] at ih ⊢
      exact ih hq

theorem shrinkAux_nonidle_mem (fuel : ℕ) (pool : List StaffAgent) (target : ℕ) :
    ∀ a ∈ pool, a.phase ≠ .IDLE → a ∈ shrinkAux fuel pool target := by
  induction fuel generalizing pool with
  | zero => intro a ha _; simpa [shrinkAux] using ha
  | succ fuel ih =>
    intro a ha hna
    unfold shrinkAux
    by_cases hlen : pool.length > target
    · simp only [hlen, if_pos]
      cases hrem : removeFirstIdle pool with
      | none => exact ha
      | some p => exact ih p a (removeFirstIdle_mem hrem a ha hna) hna
    · simpa [hlen] using ha

theorem shrinkAux_exact (fuel : ℕ) (pool : List StaffAgent) (target : ℕ)
    (hfuel : pool.length ≤ fuel) (htar : target ≤ pool.length)
    (hidle : pool.length - target ≤ idleCount pool) :
    (shrinkAux fuel pool target).length = target := by
  induction fuel generalizing pool with
  | zero =>
    have : pool.length = 0 := Nat.le_zero.mp hfuel
    simp [shrinkAux]
    omega
  | succ fuel ih =>
    unfold shrinkAux
    by_cases hlen : pool.length > target
    · simp only [hlen, if_pos]
      cases hrem : removeFirstIdle pool with
      | none =>
        exfalso
        have hzero : idleCount pool = 0 := by
          have := removeFirstIdle_none_iff.mp hrem
          simp only [idleCount]
          rw [List.countP_eq_zero]
          intro a ha
          simpa using this a ha
        omega
      | some p =>
        have hl := removeFirstIdle_length hrem
        have hc := removeFirstIdle_idleCount hrem
        exact ih p (by omega) (by omega) (by omega)
    · rw [if_neg hlen]
      omega

/-- **C5.** On each running tick the staff pool is adjusted towards the
configured target: (growth) when the pool is not larger than the target, the
adjustment appends exactly enough fresh agents to reach the target, and every
appended agent is `IDLE` at the kitchen point with zero velocity; (shrink
safety) an agent that is not currently `IDLE` — in particular one in
`GO_TO_TABLE`, `SERVING` or `RETURNING` — is never removed; (shrink
exactness) when the pool exceeds the target and enough idle agents exist, the
adjusted pool has exactly the target size. -/
theorem staff_pool_tracking (pool : List StaffAgent) (target : ℕ)
    (kitchen : ℚ × ℚ) (now : ℚ) (nextId : ℕ) :
    (pool.length ≤ target →
      adjustStaffPool pool target kitchen now nextId
        = pool ++ (List.range (target - pool.length)).map
            (fun i => mkIdleStaff (nextId + i) kitchen now) ∧
      (adjustStaffPool pool target kitchen now nextId).length = target) ∧
    (∀ a ∈ pool, a.phase ≠ .IDLE →
      a ∈ adjustStaffPool pool target kitchen now nextId) ∧
    (target ≤ pool.length → pool.length - target ≤ idleCount pool →
      (adjustStaffPool pool target kitchen now nextId).length = target) := by
  have hspawnlen : (spawnToTarget pool target kitchen now nextId).length
      = max pool.length target := by
    simp [spawnToTarget]
    omega
  refine ⟨?_, ?_, ?_⟩
  · intro hle
    have hlen : (spawnToTarget pool target kitchen now nextId).length = target := by
      omega
    have hnoshrink : ∀ fuel,
        shrinkAux fuel (spawnToTarget pool target kitchen now nextId) target
          = spawnToTarget pool target kitchen now nextId := by
      intro fuel
      cases fuel with
      | zero => rfl
      | succ f => simp [shrinkAux, hlen]
    constructor
    · rw [adjustStaffPool, shrinkToTarget, hnoshrink]
      rfl
    · rw [adjustStaffPool, shrinkToTarget, hnoshrink, hlen]
  · intro a ha hna
    exact shrinkAux_nonidle_mem _ _ _ a (by simp [spawnToTarget, ha]) hna
  · intro htar hidle
    have hlen : (spawnToTarget pool target kitchen now nextId)
        = pool := by
      simp [spawnToTarget]
      omega
    simp only [adjustStaffPool, shrinkToTarget, hlen]
    exact shrinkAux_exact _ _ _ le_rfl htar hidle

/-- A staff agent mid-service, used to instantiate the staff theorems. -/
def demoServing : StaffAgent :=
  { mkIdleStaff 2 (4, 0) 0 with
      phase := .SERVING, tableId := 3, busyTimeSec := 1, totalTimeSec := 2 }

/-- An idle staff agent, used to instantiate the staff theorems. -/
def demoIdle : StaffAgent := mkIdleStaff 7 (4, 0) 0

theorem staff_pool_tracking_witness :
    (adjustStaffPool [demoServing] 3 (4, 0) 0 5).length = 3 ∧
    demoServing ∈ adjustStaffPool [demoServing, demoIdle, demoIdle] 1 (4, 0) 0 5 ∧
    (adjustStaffPool [demoServing, demoIdle, demoIdle] 1 (4, 0) 0 5).length = 1 := by
  refine ⟨?_, ?_, ?_⟩
  · exact ((staff_pool_tracking [demoServing] 3 (4, 0) 0 5).1 (by decide)).2
  · exact (staff_pool_tracking [demoServing, demoIdle, demoIdle] 1 (4, 0) 0 5).2.1
      demoServing (by simp) (by decide)
  · exact (staff_pool_tracking [demoServing, demoIdle, demoIdle] 1 (4, 0) 0 5).2.2
      (by decide) (by decide)

/-! ## Staff tick exception boundary (C9) -/

/-- The catch-handler body applied to one agent (lines 2193–2212): reset to
`IDLE` at the kitchen point, zero velocity, and every table/request
association cleared. -/
def resetStaffAgent (kitchen : ℚ × ℚ) (a : StaffAgent) : StaffAgent :=
  { a with pos := kitchen, vel := (0, 0), phase := .IDLE, target := kitchen,
           tableId := -1, tableCenter := none, servingTargetTableId := none,
           servingTargetSpot := none, serviceSpots := none, activeSpot := none,
           lastDist := none, lastProgressTime := none, jittered := false }

/-- The guarded staff tick (lines 1698–2214): the tick body runs inside
`try`; modelling a body that either completes with a new pool (`.ok`) or
throws (`.error`).  On a throw the handler logs the failure with the
last-known agent snapshot and replaces the pool by the per-agent reset; in
both cases a value is returned, so nothing propagates to the frame loop. -/
def guardedStaffTick {ε : Type} (body : Except ε (List StaffAgent))
    (agentsAtFailure : List StaffAgent) (kitchen : ℚ × ℚ) :
    List StaffAgent :=
  match body with
  | .ok pool => pool
  | .error _ => agentsAtFailure.map (resetStaffAgent kitchen)

/-- **C9.** If the staff tick body throws, the exception is absorbed at the
tick boundary and every staff agent in the pool is reset to the `IDLE` phase
at the kitchen point with zero velocity and all table/request associations
cleared. -/
theorem staff_tick_exception_resets {ε : Type}
    (body : Except ε (List StaffAgent)) (pool : List StaffAgent)
    (kitchen : ℚ × ℚ) (e : ε) (hb : body = .error e) :
    ∀ a ∈ guardedStaffTick body pool kitchen,
      a.phase = .IDLE ∧ a.pos = kitchen ∧ a.vel = (0, 0) ∧
      a.target = kitchen ∧ a.tableId = -1 ∧ a.tableCenter = none ∧
      a.servingTargetTableId = none ∧ a.servingTargetSpot = none ∧
      a.serviceSpots = none ∧ a.activeSpot = none ∧
      a.lastDist = none ∧ a.lastProgressTime = none ∧ a.jittered = false := by
  subst hb
  intro a ha
  simp only [guardedStaffTick, List.mem_map] at ha
  obtain ⟨b, _, rfl⟩ := ha
  simp [resetStaffAgent]

theorem staff_tick_exception_resets_witness :
    (resetStaffAgent (4, 0) demoServing).phase = StaffPhase.IDLE ∧
    (resetStaffAgent (4, 0) demoServing).pos = (4, 0) ∧
    (resetStaffAgent (4, 0) demoServing).vel = (0, 0) ∧
    (resetStaffAgent (4, 0) demoServing).target = (4, 0) ∧
    (resetStaffAgent (4, 0) demoServing).tableId = -1 ∧
    (resetStaffAgent (4, 0) demoServing).tableCenter = none ∧
    (resetStaffAgent (4, 0) demoServing).servingTargetTableId = none ∧
    (resetStaffAgent (4, 0) demoServing).servingTargetSpot = none ∧
    (resetStaffAgent (4, 0) demoServing).serviceSpots = none ∧
    (resetStaffAgent (4, 0) demoServing).activeSpot = none ∧
    (resetStaffAgent (4, 0) demoServing).lastDist = none ∧
    (resetStaffAgent (4, 0) demoServing).lastProgressTime = none ∧
    (resetStaffAgent (4, 0) demoServing).jittered = false :=
  staff_tick_exception_resets (Except.error ()) [demoServing] (4, 0) () rfl
    (resetStaffAgent (4, 0) demoServing) (by simp [guardedStaffTick])

/-! ## Staff utilization (C10) -/

/-- Per-tick utilization accounting (lines 1809–1812): each tick adds `d` to
the agent's total time and adds the same `d` to its busy time exactly when
its phase is neither `IDLE` nor `DESPAWN`. -/
def tickTimes (a : StaffAgent) (d : ℚ) : StaffAgent :=
  { a with totalTimeSec := a.totalTimeSec + d,
           busyTimeSec := a.busyTimeSec +
             (if a.phase ≠ .IDLE ∧ a.phase ≠ .DESPAWN then d else 0) }

/-- Aggregate utilization reported after the tick (lines 2173–2181):
`total > 1e-6 ? busy / total : 0` over the pool-wide sums. -/
def utilization (pool : List StaffAgent) : ℚ :=
  let total := (pool.map (·.totalTimeSec)).sum
  let busy := (pool.map (·.busyTimeSec)).sum
  if total > 1 / 1000000 then busy / total else 0

/-- **C10.** The per-agent accounting invariant `0 ≤ busy ≤ total` is
preserved by every tick (the tick adds `d ≥ 0` to total and at most `d` to
busy), and under that invariant the reported aggregate utilization always
lies in `[0, 1]` (it is defined as 0 when the total is at most `1e-6`). -/
theorem staff_utilization_in_unit_interval (pool : List StaffAgent) (d : ℚ)
    (hd : 0 ≤ d)
    (hinv : ∀ a ∈ pool, 0 ≤ a.busyTimeSec ∧ a.busyTimeSec ≤ a.totalTimeSec) :
    (∀ a ∈ pool, 0 ≤ (tickTimes a d).busyTimeSec ∧
      (tickTimes a d).busyTimeSec ≤ (tickTimes a d).totalTimeSec) ∧
    0 ≤ utilization pool ∧ utilization pool ≤ 1 := by
  constructor
  · intro a ha
    obtain ⟨h0, hle⟩ := hinv a ha
    constructor
    · by_cases hp : a.phase ≠ .IDLE ∧ a.phase ≠ .DESPAWN <;>
        simp [tickTimes, hp] <;> linarith
    · by_cases hp : a.phase ≠ .IDLE ∧ a.phase ≠ .DESPAWN <;>
        simp [tickTimes, hp] <;> linarith
  · have hbusy0 : 0 ≤ (pool.map (·.busyTimeSec)).sum := by
      apply List.sum_nonneg
      intro x hx
      obtain ⟨a, ha, rfl⟩ := List.mem_map.mp hx
      exact (hinv a ha).1
    have hBT : (pool.map (·.busyTimeSec)).sum ≤ (pool.map (·.totalTimeSec)).sum :=
      List.sum_le_sum fun a ha => (hinv a ha).2
    have hun : utilization pool =
        if (1 : ℚ) / 1000000 < (pool.map (·.totalTimeSec)).sum then
          (pool.map (·.busyTimeSec)).sum / (pool.map (·.totalTimeSec)).sum
        else 0 := rfl
    rw [hun]
    by_cases ht : (1 : ℚ) / 1000000 < (pool.map (·.totalTimeSec)).sum
    · have htpos : (0 : ℚ) < (pool.map (·.totalTimeSec)).sum := by linarith
      rw [if_pos ht]
      exact ⟨div_nonneg hbusy0 htpos.le, (div_le_one htpos).mpr hBT⟩
    · rw [if_neg ht]
      norm_num

theorem staff_utilization_witness :
    0 ≤ utilization [demoServing, demoIdle] ∧
    utilization [demoServing, demoIdle] ≤ 1 :=
  (staff_utilization_in_unit_interval [demoServing, demoIdle] (1/100)
    (by norm_num)
    (by intro a ha
        rcases List.mem_cons.mp ha with rfl | ha
        · norm_num [demoServing, mkIdleStaff]
        · rcases List.mem_cons.mp ha with rfl | ha
          · norm_num [demoIdle, mkIdleStaff]
          · simp at ha)).2

/-! ## Seat assignment bookkeeping (`People`, C2)

The seat-occupancy state of `People` consists of the seat-anchor list (a prop,
regenerated by `DraggableTables` whenever tables change, lines 642–697), the
`seatTaken` id set (line 890) and the agents holding `seatId`s.  The events
below are the exact code paths that read or write this state. -/

/-- Inner walkable bounds (`inner`, lines 856–864 / `RoomInner`). -/
structure InnerQ where
  minX : ℚ
  maxX : ℚ
  minZ : ℚ
  maxZ : ℚ
deriving DecidableEq

/-- `SeatAnchorP` (line 774): a seat anchor as consumed by `People`. -/
structure SeatAnchorP where
  id : ℕ
  x : ℚ
  z : ℚ
  dir : ℚ
  tableId : ℕ
  tableCap : ℕ
deriving DecidableEq

/-- `Math.min`, in a form the kernel evaluates on rational literals. -/
def minQ (a b : ℚ) : ℚ := if a ≤ b then a else b

/-- `Math.abs`, in a form the kernel evaluates on rational literals. -/
def absQ (a : ℚ) : ℚ := if a < 0 then -a else a

/-- `wallDist` (lines 901–907): distance to the nearest of the four walls. -/
def wallDist (inner : InnerQ) (x z : ℚ) : ℚ :=
  minQ (minQ (absQ (x - inner.minX)) (absQ (inner.maxX - x)))
    (minQ (absQ (z - inner.minZ)) (absQ (inner.maxZ - z)))

/-- Insertion into a key-sorted list (helper for `sortByKey`). -/
def insertByKey (key : SeatAnchorP → ℚ) (a : SeatAnchorP) :
    List SeatAnchorP → List SeatAnchorP
  | [] => [a]
  | b :: rest =>
    if key a < key b then a :: b :: rest else b :: insertByKey key a rest

/-- Sorting by key; agrees with the source's `Array.prototype.sort` under the
comparator `(a, b) => wallDist(a) - wallDist(b)` whenever the keys are
pairwise distinct (all concrete traces below use distinct keys). -/
def sortByKey (key : SeatAnchorP → ℚ) : List SeatAnchorP → List SeatAnchorP
  | [] => []
  | a :: rest => insertByKey key a (sortByKey key rest)

/-- `tryAssignSeat` (lines 915–923): among the seats whose id is not in
`seatTaken`, pick the one closest to a wall.  The source also inserts the
returned id into `seatTaken`; the callers below perform that insertion. -/
def tryAssignSeat (inner : InnerQ) (seats : List SeatAnchorP)
    (seatTaken : List ℕ) : Option ℕ :=
  let free := seats.filter (fun s => decide (s.id ∉ seatTaken))
  ((sortByKey (fun s => wallDist inner s.x s.z) free).head?).map (·.id)

/-- The customer `Phase` union (lines 748–757). -/
inductive CPhase
  | approachDoor | foyer | toSeat | seated | toiletGo | toiletUse
  | exit | outside | despawn
deriving DecidableEq

/-- Projection of the customer `Agent` record (lines 759–772) to the fields
the seat-occupancy bookkeeping reads and writes; the kinematic fields
(position, velocity, lane, target, timers) do not influence which seat ids
are held. -/
structure CSeatAgent where
  id : ℕ
  phase : CPhase
  seatId : Option ℕ
deriving DecidableEq

/-- An agent still claiming its seat: every pre-departure phase.  An `exit`
agent keeps a stale `seatId` field, but its claim was already released when it
left the seat (lines 1139–1150) or abandoned in the foyer. -/
def agentActive (a : CSeatAgent) : Bool :=
  decide (a.phase ≠ .exit ∧ a.phase ≠ .outside ∧ a.phase ≠ .despawn)

/-- The seat id an agent is actively claiming, if any. -/
def heldOf (a : CSeatAgent) : Option ℕ :=
  if agentActive a then a.seatId else none

/-- The seat ids held by still-active agents, in agent order. -/
def heldIds (ags : List CSeatAgent) : List ℕ := ags.filterMap heldOf

/-- The seat-occupancy state of `People`. -/
structure SeatState where
  seats : List SeatAnchorP
  seatTaken : List ℕ
  agents : List CSeatAgent
  nextId : ℕ
deriving DecidableEq

/-- Initial seat state: no agents, empty taken-set, ids from 1
(`nextId = useRef(1)`, line 926). -/
def initSeatState (seats : List SeatAnchorP) : SeatState :=
  ⟨seats, [], [], 1⟩

/-- The code paths that read or write the seat-occupancy state. -/
inductive SeatEvent
  /-- `spawnOne` (lines 941–968). -/
  | spawn
  /-- the per-tick assignment loop (lines 1044–1053). -/
  | assignWaiting
  /-- `approachDoor → foyer` (lines 1071–1076). -/
  | enterFoyer (i : ℕ)
  /-- the foyer gate `phase = seatId != null ? 'toSeat' : 'foyer'`
  (lines 1085–1087). -/
  | foyerGate (i : ℕ)
  /-- the foyer wait timeout `foyer → exit` (lines 1078–1083); the seat id,
  if any, is kept and its claim stays in `seatTaken`. -/
  | balk (i : ℕ)
  /-- `toSeat` seat lookup and arrival (lines 1088–1107): seated on arrival
  when the seat id is still present, back to `foyer` when it is not. -/
  | arrive (i : ℕ)
  /-- `seated → toiletGo` (lines 1136–1138). -/
  | wcGo (i : ℕ)
  /-- `toiletGo → toiletUse` (lines 1152–1159). -/
  | wcUse (i : ℕ)
  /-- `toiletUse → toSeat` (lines 1160–1164). -/
  | wcBack (i : ℕ)
  /-- the seated departure (lines 1139–1150): release the seat claim,
  keep the stale `seatId` field, phase `exit`. -/
  | leave (i : ℕ)
  /-- `exit → outside` (lines 1341–1346). -/
  | depart (i : ℕ)
  /-- seat anchors regenerated after a table change (lines 642–697); the
  taken-set is filtered to the surviving ids (lines 892–899). -/
  | regenSeats (seats : List SeatAnchorP)

/-- Prepend a freshly assigned id, mirroring `seatTaken.current.add` inside
`tryAssignSeat`. -/
def pushTaken (sid : Option ℕ) (taken : List ℕ) : List ℕ :=
  match sid with
  | some s => s :: taken
  | none => taken

/-- `spawnOne` (lines 941–968): a fresh agent in `approachDoor`, with a seat
optimistically assigned at spawn time (line 951). -/
def spawnStep (inner : InnerQ) (st : SeatState) : SeatState :=
  let sid := tryAssignSeat inner st.seats st.seatTaken
  { st with
    agents := st.agents ++ [⟨st.nextId, .approachDoor, sid⟩]
    seatTaken := pushTaken sid st.seatTaken
    nextId := st.nextId + 1 }

/-- The per-tick assignment loop (lines 1044–1053), sequentially over the
agent list: every `foyer`/`toSeat` agent without a seat tries to claim one. -/
def assignLoop (inner : InnerQ) (seats : List SeatAnchorP) :
    List CSeatAgent → List ℕ → List CSeatAgent × List ℕ
  | [], taken => ([], taken)
  | a :: rest, taken =>
    if (a.phase = .foyer ∨ a.phase = .toSeat) ∧ a.seatId = none then
      match tryAssignSeat inner seats taken with
      | some sid =>
        let out := assignLoop inner seats rest (sid :: taken)
        ({ a with seatId := some sid, phase := .toSeat } :: out.1, out.2)
      | none =>
        let out := assignLoop inner seats rest taken
        (a :: out.1, out.2)
    else
      let out := assignLoop inner seats rest taken
      (a :: out.1, out.2)

/-- A guarded phase change of agent `i`. -/
def phaseShift (st : SeatState) (i : ℕ) (src dst : CPhase) : SeatState :=
  match st.agents[i]? with
  | some a =>
    if a.phase = src then
      { st with agents := st.agents.set i { a with phase := dst } }
    else st
  | none => st

/-- One seat-relevant transition of the `People` component. -/
def seatStep (inner : InnerQ) (st : SeatState) : SeatEvent → SeatState
  | .spawn => spawnStep inner st
  | .assignWaiting =>
    let out := assignLoop inner st.seats st.agents st.seatTaken
    { st with agents := out.1, seatTaken := out.2 }
  | .enterFoyer i => phaseShift st i .approachDoor .foyer
  | .foyerGate i =>
    match st.agents[i]? with
    | some a =>
      if a.phase = .foyer ∧ a.seatId ≠ none then
        { st with agents := st.agents.set i { a with phase := .toSeat } }
      else st
    | none => st
  | .balk i => phaseShift st i .foyer .exit
  | .arrive i =>
    match st.agents[i]? with
    | some a =>
      if a.phase = .toSeat then
        match a.seatId with
        | some s =>
          if st.seats.any (fun t => decide (t.id = s)) then
            { st with agents := st.agents.set i { a with phase := .seated } }
          else
            { st with agents := st.agents.set i { a with phase := .foyer } }
        | none => { st with agents := st.agents.set i { a with phase := .foyer } }
      else st
    | none => st
  | .wcGo i => phaseShift st i .seated .toiletGo
  | .wcUse i => phaseShift st i .toiletGo .toiletUse
  | .wcBack i => phaseShift st i .toiletUse .toSeat
  | .leave i =>
    match st.agents[i]? with
    | some a =>
      if a.phase = .seated then
        { st with
          agents := st.agents.set i { a with phase := .exit }
          seatTaken :=
            match a.seatId with
            | some s => st.seatTaken.erase s
            | none => st.seatTaken }
      else st
    | none => st
  | .depart i => phaseShift st i .exit .outside
  | .regenSeats s' =>
    { st with
      seats := s'
      seatTaken :=
        st.seatTaken.filter (fun id => s'.any (fun t => decide (t.id = id))) }

/-- Run a sequence of seat events. -/
def runSeatEvents (inner : InnerQ) (st : SeatState)
    (evs : List SeatEvent) : SeatState :=
  evs.foldl (seatStep inner) st

/-- The seat ids held by simultaneously-seated agents. -/
def seatedIds (st : SeatState) : List ℕ :=
  st.agents.filterMap (fun a => if a.phase = .seated then a.seatId else none)

/-- Claim C2's invariant: simultaneously-seated agents hold pairwise distinct
seat anchor ids. -/
def SeatedInjective (st : SeatState) : Prop := (seatedIds st).Nodup

/-- Executable duplicate check used to evaluate `SeatedInjective` on concrete
states. -/
def dupFree : List ℕ → Bool
  | [] => true
  | x :: xs => (!(decide (x ∈ xs))) && dupFree xs

theorem dupFree_iff_nodup : ∀ {l : List ℕ}, dupFree l = true ↔ l.Nodup := by
  intro l
  induction l with
  | nil => simp [dupFree]
  | cons x xs ih => simp [dupFree, ih]

/-- A seat regeneration is lossless when it keeps every id still held by an
active agent; any other event is unconditionally fine. -/
def goodEvent (st : SeatState) : SeatEvent → Bool
  | .regenSeats s' =>
    (heldIds st.agents).all (fun id => s'.any (fun t => decide (t.id = id)))
  | _ => true

/-- A trace whose regenerations never drop a held id. -/
def goodTrace (inner : InnerQ) : SeatState → List SeatEvent → Bool
  | _, [] => true
  | st, e :: es => goodEvent st e && goodTrace inner (seatStep inner st e) es

/-- The inductive invariant behind C2: actively held seat ids are pairwise
distinct and all recorded in `seatTaken`. -/
def SeatInv (st : SeatState) : Prop :=
  (heldIds st.agents).Nodup ∧ ∀ id ∈ heldIds st.agents, id ∈ st.seatTaken

theorem mem_insertByKey {key : SeatAnchorP → ℚ} {a b : SeatAnchorP} :
    ∀ {l : List SeatAnchorP}, b ∈ insertByKey key a l ↔ b = a ∨ b ∈ l := by
  intro l
  induction l with
  | nil => simp [insertByKey]
  | cons c rest ih =>
    by_cases h : key a < key c
    · simp [insertByKey, h]
    · simp only [insertByKey, h, if_false, List.mem_cons, ih]
      tauto

theorem mem_sortByKey {key : SeatAnchorP → ℚ} {b : SeatAnchorP} :
    ∀ {l : List SeatAnchorP}, b ∈ sortByKey key l ↔ b ∈ l := by
  intro l
  induction l with
  | nil => simp [sortByKey]
  | cons a rest ih => simp [sortByKey, mem_insertByKey, ih]

/-- A seat returned by `tryAssignSeat` is fresh (not in `seatTaken`) and is one
of the current anchors. -/
theorem tryAssignSeat_spec {inner : InnerQ} {seats : List SeatAnchorP}
    {taken : List ℕ} {sid : ℕ}
    (h : tryAssignSeat inner seats taken = some sid) :
    sid ∉ taken ∧ ∃ s ∈ seats, s.id = sid := by
  unfold tryAssignSeat at h
  rw [Option.map_eq_some'] at h
  obtain ⟨s, hs, rfl⟩ := h
  have hmem : s ∈ sortByKey (fun s => wallDist inner s.x s.z)
      (seats.filter (fun s => decide (s.id ∉ taken))) :=
    List.mem_of_mem_head? hs
  rw [mem_sortByKey, List.mem_filter] at hmem
  exact ⟨by simpa using hmem.2, s, hmem.1, rfl⟩

theorem heldIds_cons (a : CSeatAgent) (rest : List CSeatAgent) :
    heldIds (a :: rest) =
      match heldOf a with
      | some id => id :: heldIds rest
      | none => heldIds rest := by
  simp [heldIds, List.filterMap_cons]
  cases heldOf a <;> simp

theorem heldIds_append (l₁ l₂ : List CSeatAgent) :
    heldIds (l₁ ++ l₂) = heldIds l₁ ++ heldIds l₂ := by
  simp [heldIds, List.filterMap_append]

/-- Replacing an agent by one making the same claim leaves `heldIds`
unchanged. -/
theorem heldIds_set_congr {a a' : CSeatAgent} (hf : heldOf a' = heldOf a) :
    ∀ {l : List CSeatAgent} {i : ℕ}, l[i]? = some a →
      heldIds (l.set i a') = heldIds l := by
  intro l
  induction l with
  | nil => intro i h; simp at h
  | cons b rest ih =>
    intro i h
    cases i with
    | zero =>
      simp only [List.getElem?_cons_zero, Option.some.injEq] at h
      subst h
      simp [List.set, heldIds_cons, hf]
    | succ n =>
      simp only [List.getElem?_cons_succ] at h
      simp [List.set, heldIds_cons, ih h]

/-- Replacing an agent claiming `sid` by one claiming nothing removes exactly
that one occurrence of `sid` from `heldIds`. -/
theorem heldIds_set_release {a : CSeatAgent} (a' : CSeatAgent) {sid : ℕ}
    (ha : heldOf a = some sid) (ha' : heldOf a' = none) :
    ∀ {l : List CSeatAgent} {i : ℕ}, l[i]? = some a →
      ∃ l₁ l₂, heldIds l = l₁ ++ sid :: l₂ ∧
        heldIds (l.set i a') = l₁ ++ l₂ := by
  intro l
  induction l with
  | nil => intro i h; simp at h
  | cons b rest ih =>
    intro i h
    cases i with
    | zero =>
      simp only [List.getElem?_cons_zero, Option.some.injEq] at h
      subst h
      refine ⟨[], heldIds rest, ?_, ?_⟩
      · simp [heldIds_cons, ha]
      · simp [List.set, heldIds_cons, ha']
    | succ n =>
      simp only [List.getElem?_cons_succ] at h
      obtain ⟨l₁, l₂, h1, h2⟩ := ih h
      cases hb : heldOf b with
      | none =>
        refine ⟨l₁, l₂, ?_, ?_⟩
        · simp [heldIds_cons, hb, h1]
        · simp [List.set, heldIds_cons, hb, h2]
      | some idb =>
        refine ⟨idb :: l₁, l₂, ?_, ?_⟩
        · simp [heldIds_cons, hb, h1]
        · simp [List.set, heldIds_cons, hb, h2]

/-- The sequential assignment loop keeps held ids distinct and recorded:
fresh seats are never already held, because held ids are always inside
`seatTaken` and `tryAssignSeat` avoids `seatTaken`. -/
theorem assignLoop_inv (inner : InnerQ) (seats : List SeatAnchorP) :
    ∀ (ags : List CSeatAgent) (taken : List ℕ),
      (heldIds ags).Nodup → (∀ id ∈ heldIds ags, id ∈ taken) →
      (heldIds (assignLoop inner seats ags taken).1).Nodup ∧
      (∀ id ∈ heldIds (assignLoop inner seats ags taken).1,
        id ∈ (assignLoop inner seats ags taken).2) ∧
      (∀ id ∈ taken, id ∈ (assignLoop inner seats ags taken).2) ∧
      (∀ id ∈ heldIds (assignLoop inner seats ags taken).1,
        id ∈ heldIds ags ∨ id ∉ taken) := by
  intro ags
  induction ags with
  | nil =>
    intro taken _ _
    simp [assignLoop, heldIds]
  | cons a rest ih =>
    intro taken h1 h2
    by_cases hcond : (a.phase = .foyer ∨ a.phase = .toSeat) ∧ a.seatId = none
    · have hheld : heldOf a = none := by
        simp [heldOf, hcond.2]
      rw [heldIds_cons, hheld] at h1 h2
      cases hassign : tryAssignSeat inner seats taken with
      | none =>
        have ihout := ih taken h1 h2
        simp only [assignLoop, if_pos hcond, hassign]
        have ha' : heldOf a = none := hheld
        constructor
        · rw [heldIds_cons, ha']
          exact ihout.1
        refine ⟨?_, ihout.2.2.1, ?_⟩
        · intro id hid
          rw [heldIds_cons, ha'] at hid
          exact ihout.2.1 id hid
        · intro id hid
          rw [heldIds_cons, ha'] at hid
          rcases ihout.2.2.2 id hid with hl | hr
          · left; rw [heldIds_cons, hheld]; exact hl
          · right; exact hr
      | some sid =>
        have hfresh : sid ∉ taken := (tryAssignSeat_spec hassign).1
        have h2' : ∀ id ∈ heldIds rest, id ∈ sid :: taken := by
          intro id hid
          exact List.mem_cons_of_mem _ (h2 id hid)
        have ihout := ih (sid :: taken) h1 h2'
        simp only [assignLoop, if_pos hcond, hassign]
        have ha' : heldOf { a with seatId := some sid, phase := CPhase.toSeat }
            = some sid := by
          simp [heldOf, agentActive]
        have hsid_not : sid ∉
            (heldIds (assignLoop inner seats rest (sid :: taken)).1) := by
          intro hmem
          rcases ihout.2.2.2 sid hmem with hl | hr
          · exact hfresh (h2 sid hl)
          · exact hr (List.mem_cons_self _ _)
        constructor
        · rw [heldIds_cons, ha']
          exact List.nodup_cons.mpr ⟨hsid_not, ihout.1⟩
        refine ⟨?_, ?_, ?_⟩
        · intro id hid
          rw [heldIds_cons, ha', List.mem_cons] at hid
          rcases hid with rfl | hid
          · exact ihout.2.2.1 id (List.mem_cons_self _ _)
          · exact ihout.2.1 id hid
        · intro id hid
          exact ihout.2.2.1 id (List.mem_cons_of_mem _ hid)
        · intro id hid
          rw [heldIds_cons, ha', List.mem_cons] at hid
          rcases hid with rfl | hid
          · right; exact hfresh
          · rcases ihout.2.2.2 id hid with hl | hr
            · left; rw [heldIds_cons, hheld]; exact hl
            · right; intro hmem
              exact hr (List.mem_cons_of_mem _ hmem)
    · -- the agent is skipped by the loop
      cases hheld : heldOf a with
      | none =>
        rw [heldIds_cons, hheld] at h1 h2
        have ihout := ih taken h1 h2
        simp only [assignLoop, if_neg hcond]
        constructor
        · rw [heldIds_cons, hheld]
          exact ihout.1
        refine ⟨?_, ihout.2.2.1, ?_⟩
        · intro id hid
          rw [heldIds_cons, hheld] at hid
          exact ihout.2.1 id hid
        · intro id hid
          rw [heldIds_cons, hheld] at hid
          rcases ihout.2.2.2 id hid with hl | hr
          · left; rw [heldIds_cons, hheld]; exact hl
          · right; exact hr
      | some id0 =>
        rw [heldIds_cons, hheld] at h1 h2
        have h1' := List.nodup_cons.mp h1
        have h2' : ∀ id ∈ heldIds rest, id ∈ taken := by
          intro id hid
          exact h2 id (List.mem_cons_of_mem _ hid)
        have ihout := ih taken h1'.2 h2'
        simp only [assignLoop, if_neg hcond]
        have hid0_not : id0 ∉
            (heldIds (assignLoop inner seats rest taken).1) := by
          intro hmem
          rcases ihout.2.2.2 id0 hmem with hl | hr
          · exact h1'.1 hl
          · exact hr (h2 id0 (List.mem_cons_self _ _))
        constructor
        · rw [heldIds_cons, hheld]
          exact List.nodup_cons.mpr ⟨hid0_not, ihout.1⟩
        refine ⟨?_, ihout.2.2.1, ?_⟩
        · intro id hid
          rw [heldIds_cons, hheld, List.mem_cons] at hid
          rcases hid with rfl | hid
          · exact ihout.2.2.1 id (h2 id (List.mem_cons_self _ _))
          · exact ihout.2.1 id hid
        · intro id hid
          rw [heldIds_cons, hheld, List.mem_cons] at hid
          rcases hid with rfl | hid
          · left; rw [heldIds_cons, hheld]; exact List.mem_cons_self _ _
          · rcases ihout.2.2.2 id hid with hl | hr
            · left; rw [heldIds_cons, hheld]; exact List.mem_cons_of_mem _ hl
            · right; exact hr

/-- Rebuild the invariant after replacing the agent list by one with the same
held ids (`seatTaken` unchanged). -/
theorem SeatInv_setAgents (st : SeatState) (ags' : List CSeatAgent)
    (h : heldIds ags' = heldIds st.agents) (hinv : SeatInv st) :
    SeatInv { st with agents := ags' } :=
  ⟨h ▸ hinv.1, fun id hid => hinv.2 id (h ▸ hid)⟩

/-- A phase change that preserves the activity status and the seat id
preserves the seat invariant. -/
theorem SeatInv_phaseShift (st : SeatState) (i : ℕ) (src dst : CPhase)
    (hinv : SeatInv st)
    (hact : ∀ a : CSeatAgent, a.phase = src →
      heldOf { a with phase := dst } = heldOf a) :
    SeatInv (phaseShift st i src dst) := by
  unfold phaseShift
  cases hget : st.agents[i]? with
  | none => exact hinv
  | some a =>
    dsimp only
    by_cases hp : a.phase = src
    · rw [if_pos hp]
      exact SeatInv_setAgents st _ (heldIds_set_congr (hact a hp) hget) hinv
    · rw [if_neg hp]
      exact hinv

/-- An agent whose claim is dropped (without touching ids still held by
others) preserves distinctness; `keepNe` tells whether `seatTaken` loses the
id (`leave`) or keeps it (`balk`). -/
theorem SeatInv_release {ags ags' : List CSeatAgent} {taken taken' : List ℕ}
    {sid : ℕ} {l₁ l₂ : List ℕ}
    (h1 : heldIds ags = l₁ ++ sid :: l₂) (h2 : heldIds ags' = l₁ ++ l₂)
    (hnd : (heldIds ags).Nodup) (hsub : ∀ id ∈ heldIds ags, id ∈ taken)
    (htk : ∀ id ∈ taken, id ≠ sid → id ∈ taken') :
    (heldIds ags').Nodup ∧ ∀ id ∈ heldIds ags', id ∈ taken' := by
  rw [h1] at hnd hsub
  rw [h2]
  have hsl : (l₁ ++ l₂).Sublist (l₁ ++ sid :: l₂) :=
    ((List.Sublist.refl l₂).cons sid).append_left l₁
  refine ⟨hnd.sublist hsl, ?_⟩
  intro id hid
  have hmemo : id ∈ l₁ ++ sid :: l₂ := hsl.mem hid
  have hne : id ≠ sid := by
    rintro rfl
    have := List.disjoint_of_nodup_append hnd
    rcases List.mem_append.mp hid with hL | hR
    · exact this hL (List.mem_cons_self _ _)
    · have hnd2 := (List.nodup_append.mp hnd).2.1
      exact (List.nodup_cons.mp hnd2).1 hR
  exact htk id (hsub id hmemo) hne

/-- Every seat event fired under its `goodEvent` guard preserves the seat
invariant. -/
theorem seatStep_inv (inner : InnerQ) (st : SeatState) (e : SeatEvent)
    (hinv : SeatInv st) (hgood : goodEvent st e = true) :
    SeatInv (seatStep inner st e) := by
  cases e with
  | spawn =>
    simp only [seatStep, spawnStep]
    cases hassign : tryAssignSeat inner st.seats st.seatTaken with
    | none =>
      have hnew : heldOf ⟨st.nextId, .approachDoor, none⟩ = none := by
        simp [heldOf]
      have hsplit : heldIds (st.agents ++ [⟨st.nextId, .approachDoor, none⟩])
          = heldIds st.agents := by
        rw [heldIds_append, heldIds_cons, hnew]
        simp [heldIds]
      exact ⟨hsplit ▸ hinv.1, fun id hid => hinv.2 id (hsplit ▸ hid)⟩
    | some sid =>
      have hfresh : sid ∉ st.seatTaken := (tryAssignSeat_spec hassign).1
      have hnew : heldOf ⟨st.nextId, .approachDoor, some sid⟩ = some sid := by
        simp [heldOf, agentActive]
      have hsplit : heldIds (st.agents ++ [⟨st.nextId, .approachDoor, some sid⟩])
          = heldIds st.agents ++ [sid] := by
        rw [heldIds_append, heldIds_cons, hnew]
        simp [heldIds]
      constructor
      · rw [hsplit, List.nodup_append]
        refine ⟨hinv.1, List.nodup_singleton _, ?_⟩
        intro id hid
        simp only [List.mem_singleton]
        rintro rfl
        exact hfresh (hinv.2 id hid)
      · intro id hid
        rw [hsplit, List.mem_append, List.mem_singleton] at hid
        simp only [pushTaken, List.mem_cons]
        rcases hid with hid | rfl
        · exact Or.inr (hinv.2 id hid)
        · exact Or.inl rfl
  | assignWaiting =>
    have h := assignLoop_inv inner st.seats st.agents st.seatTaken hinv.1 hinv.2
    exact ⟨h.1, h.2.1⟩
  | enterFoyer i =>
    exact SeatInv_phaseShift st i _ _ hinv
      (by intro a ha; simp [heldOf, agentActive, ha])
  | foyerGate i =>
    simp only [seatStep]
    cases hget : st.agents[i]? with
    | none => exact hinv
    | some a =>
      dsimp only
      by_cases hp : a.phase = .foyer ∧ a.seatId ≠ none
      · rw [if_pos hp]
        exact SeatInv_setAgents st _ (heldIds_set_congr
          (by simp [heldOf, agentActive, hp.1]) hget) hinv
      · rw [if_neg hp]
        exact hinv
  | balk i =>
    simp only [seatStep, phaseShift]
    cases hget : st.agents[i]? with
    | none => exact hinv
    | some a =>
      dsimp only
      by_cases hp : a.phase = .foyer
      · rw [if_pos hp]
        cases hheld : heldOf a with
        | none =>
          refine SeatInv_setAgents st _ (heldIds_set_congr ?_ hget) hinv
          rw [hheld]
          simp [heldOf, agentActive]
        | some sid =>
          obtain ⟨l₁, l₂, h1, h2⟩ := heldIds_set_release
            { a with phase := .exit } hheld (by simp [heldOf, agentActive])
            hget
          exact SeatInv_release h1 h2 hinv.1 hinv.2 (fun id hid _ => hid)
      · rw [if_neg hp]
        exact hinv
  | arrive i =>
    simp only [seatStep]
    cases hget : st.agents[i]? with
    | none => exact hinv
    | some a =>
      dsimp only
      by_cases hp : a.phase = .toSeat
      · rw [if_pos hp]
        cases hsid : a.seatId with
        | some s =>
          dsimp only
          by_cases hpresent : st.seats.any (fun t => decide (t.id = s)) = true
          · rw [if_pos hpresent]
            exact SeatInv_setAgents st _ (heldIds_set_congr
              (by simp [heldOf, agentActive, hp, hsid]) hget) hinv
          · rw [if_neg hpresent]
            exact SeatInv_setAgents st _ (heldIds_set_congr
              (by simp [heldOf, agentActive, hp, hsid]) hget) hinv
        | none =>
          dsimp only
          exact SeatInv_setAgents st _ (heldIds_set_congr
            (by simp [heldOf, agentActive, hp, hsid]) hget) hinv
      · rw [if_neg hp]
        exact hinv
  | wcGo i =>
    exact SeatInv_phaseShift st i _ _ hinv
      (by intro a ha; simp [heldOf, agentActive, ha])
  | wcUse i =>
    exact SeatInv_phaseShift st i _ _ hinv
      (by intro a ha; simp [heldOf, agentActive, ha])
  | wcBack i =>
    exact SeatInv_phaseShift st i _ _ hinv
      (by intro a ha; simp [heldOf, agentActive, ha])
  | leave i =>
    simp only [seatStep]
    cases hget : st.agents[i]? with
    | none => exact hinv
    | some a =>
      dsimp only
      by_cases hp : a.phase = .seated
      · rw [if_pos hp]
        cases hsid : a.seatId with
        | none =>
          dsimp only
          exact SeatInv_setAgents st _ (heldIds_set_congr
            (by simp [heldOf, agentActive, hsid]) hget) hinv
        | some s =>
          dsimp only
          have hheld : heldOf a = some s := by
            simp [heldOf, agentActive, hp, hsid]
          obtain ⟨l₁, l₂, h1, h2⟩ := heldIds_set_release
            { a with phase := .exit } hheld (by simp [heldOf, agentActive])
            hget
          rw [hsid] at h2
          have hrel := SeatInv_release h1 h2 hinv.1 hinv.2
            (fun id hid hne => (List.mem_erase_of_ne hne).mpr hid)
          exact ⟨hrel.1, hrel.2⟩
      · rw [if_neg hp]
        exact hinv
  | depart i =>
    exact SeatInv_phaseShift st i _ _ hinv
      (by intro a ha
          simp [heldOf, agentActive, ha])
  | regenSeats s' =>
    simp only [seatStep]
    refine ⟨hinv.1, ?_⟩
    intro id hid
    rw [List.mem_filter]
    refine ⟨hinv.2 id hid, ?_⟩
    simp only [goodEvent] at hgood
    rw [List.all_eq_true] at hgood
    exact hgood id hid

/-- The seated agents' ids are a sublist of the actively held ids: every
seated agent is active. -/
theorem seatedIds_sublist (ags : List CSeatAgent) :
    (ags.filterMap (fun a => if a.phase = .seated then a.seatId else none)).Sublist
      (heldIds ags) := by
  induction ags with
  | nil => simp [heldIds]
  | cons a rest ih =>
    rw [List.filterMap_cons, heldIds_cons]
    by_cases hs : a.phase = .seated
    · have : heldOf a = a.seatId := by
        simp [heldOf, agentActive, hs]
      rw [if_pos hs, this]
      cases a.seatId with
      | none => exact ih
      | some s => exact ih.cons₂ s
    · rw [if_neg hs]
      cases heldOf a with
      | none => exact ih
      | some s => exact ih.cons s

theorem seatInv_run (inner : InnerQ) :
    ∀ (evs : List SeatEvent) (st : SeatState), SeatInv st →
      goodTrace inner st evs = true → SeatInv (runSeatEvents inner st evs) := by
  intro evs
  induction evs with
  | nil => intro st h _; exact h
  | cons e es ih =>
    intro st h hg
    rw [goodTrace, Bool.and_eq_true] at hg
    exact ih _ (seatStep_inv inner st e h hg.1) hg.2

/-- **C2 (amended).** Starting from the initial (empty) occupancy state, seat
assignment stays injective — no two simultaneously-seated customers hold the
same seat anchor id — along every event trace in which each seat-anchor
regeneration keeps the ids still held by active customers.  (The unamended
claim fails: a regeneration that drops a held id and later re-introduces it
lets `tryAssignSeat` hand the id out a second time, see the counterexample.) -/
theorem seat_injective_of_good_trace (inner : InnerQ)
    (seats0 : List SeatAnchorP) (evs : List SeatEvent)
    (hgood : goodTrace inner (initSeatState seats0) evs = true) :
    SeatedInjective (runSeatEvents inner (initSeatState seats0) evs) := by
  have h0 : SeatInv (initSeatState seats0) := by
    constructor <;> simp [initSeatState, heldIds]
  have h := seatInv_run inner evs _ h0 hgood
  exact h.1.sublist (seatedIds_sublist _)

/-- Room bounds used by the concrete seat traces. -/
def demoInner : InnerQ := ⟨-5, 5, -5, 5⟩

/-- Four seat anchors of one 4-top table (ids `tableIndex*10 + k`), at
pairwise distinct wall distances. -/
def demoSeats : List SeatAnchorP :=
  [⟨0, 0, 0, 0, 0, 4⟩, ⟨1, 0, 1, 0, 0, 4⟩, ⟨2, 0, 2, 0, 0, 4⟩, ⟨3, 0, 3, 0, 0, 4⟩]

theorem seat_injective_of_good_trace_witness :
    SeatedInjective (runSeatEvents demoInner (initSeatState demoSeats)
      [.spawn, .enterFoyer 0, .foyerGate 0, .arrive 0,
       .spawn, .enterFoyer 1, .foyerGate 1, .arrive 1]) :=
  seat_injective_of_good_trace demoInner demoSeats _ (by
    norm_num [goodTrace, goodEvent, runSeatEvents, seatStep, spawnStep, phaseShift,
      initSeatState, tryAssignSeat, sortByKey, insertByKey, wallDist, minQ, absQ,
      demoInner, demoSeats, pushTaken, heldIds, heldOf, agentActive,
      Option.some_ne_none, Option.isSome])

/-- **C2 counterexample.** Claim C2 as stated fails across seat-anchor
regeneration: customer 1 is seated on anchor 3; the tables are removed
(anchors regenerate to `[]`, and the `seatTaken` filter drops id 3 while the
seated customer keeps it) and then re-added (the same anchor ids reappear);
`tryAssignSeat` hands the — apparently free — id 3 to customer 2, and both
customers are then simultaneously seated with seat anchor id 3. -/
theorem c2_regen_counterexample :
    ¬ SeatedInjective (runSeatEvents demoInner (initSeatState demoSeats)
      [.spawn, .enterFoyer 0, .foyerGate 0, .arrive 0,
       .regenSeats [], .regenSeats demoSeats,
       .spawn, .enterFoyer 1, .foyerGate 1, .arrive 1]) := by
  intro h
  rw [SeatedInjective] at h
  have he : seatedIds (runSeatEvents demoInner (initSeatState demoSeats)
      [.spawn, .enterFoyer 0, .foyerGate 0, .arrive 0,
       .regenSeats [], .regenSeats demoSeats,
       .spawn, .enterFoyer 1, .foyerGate 1, .arrive 1]) = [3, 3] := by
    norm_num [seatedIds, runSeatEvents, seatStep, spawnStep, phaseShift,
      initSeatState, tryAssignSeat, sortByKey, insertByKey, wallDist, minQ, absQ,
      demoInner, demoSeats, pushTaken, Option.some_ne_none, Option.isSome, List.filterMap_cons, List.filterMap_nil]
  rw [he] at h
  simp at h

/-! ## The customer tick and the departed counter (C8)

The per-agent loop of the customer `useFrame` tick (lines 1062–1347).  The
spawn and seat-assignment preludes of the tick (lines 1028–1053) touch only
`pending`, `spawnCooldown`, `seatTaken` and fresh `approachDoor` agents; they
never reference `departedCount` and never produce an `exit` or `outside`
phase, so the loop below is the entire counter-relevant part of the tick. -/

/-- Environment of the customer tick: room bounds, door centre, stay-time
configuration, restroom point and current seat anchors. -/
structure PeopleEnv where
  inner : InnerQ
  doorCX : ℚ
  baseStaySec : ℚ
  timeLimitOn : Bool
  timeCapSec : ℚ
  serviceCoef : ℚ
  toiletX : ℚ
  toiletZ : ℚ
  seats : List SeatAnchorP
deriving DecidableEq

/-- `doorWP` z-coordinate (line 869). -/
def doorWPz (e : PeopleEnv) : ℚ := e.inner.minZ + 1/2

/-- `foyerWP` z-coordinate (line 870). -/
def foyerWPz (e : PeopleEnv) : ℚ := e.inner.minZ + 8/5

/-- `exitWP` z-coordinate (line 871). -/
def exitWPz (e : PeopleEnv) : ℚ := e.inner.minZ - 9/10

/-- `OUTSIDE_Z` (line 996). -/
def outsideZ (e : PeopleEnv) : ℚ := e.inner.minZ - 6/5

/-- The customer `Agent` record (lines 759–772). -/
structure Agent where
  id : ℕ
  pos : ℚ × ℚ
  vel : ℚ × ℚ
  laneX : ℚ
  phase : CPhase
  target : ℚ × ℚ
  seatId : Option ℕ
  leaveAt : ℚ
  since : ℚ
  stuck : ℚ
  wcPlanned : Bool
  wcAt : ℚ
deriving DecidableEq

/-- `THREE.MathUtils.lerp`. -/
def lerpQ (x y t : ℚ) : ℚ := x + (y - x) * t

/-- Inputs to one agent's tick step that are computed outside the phase
logic: the position and velocity produced by the steering integration (lines
1169–1338, real-valued; that stage is analysed separately for C1 — its values
are irrelevant to the phase/counter bookkeeping, so the tick is parametrized
by them), the seat's approach point (`approachPointFor`, line 909, computed
with sin/cos of the anchor angle), and the `Math.random()` draw of the
restroom roll. -/
structure CustOracle where
  movePos : ℚ × ℚ
  moveVel : ℚ × ℚ
  ap : ℚ × ℚ
  u : ℚ
deriving DecidableEq

/-- The phase-specific update of one non-`outside` customer agent (lines
1071–1167), the source's `if/else-if` chain on the (pairwise distinct) phase
values written as a match on the phase.  The `seated` departure branch also
releases the seat claim and the table occupancy; that shared bookkeeping is
the seat-event model above.  `despawn` is matched by no branch of the chain
(the customer simulation never assigns it). -/
def custPhaseLogic (e : PeopleEnv) (now : ℚ) (o : CustOracle) (a : Agent) :
    Agent :=
  match a.phase with
  | .approachDoor =>
    let a1 : Agent := { a with target := (e.doorCX, doorWPz e) }
    if a1.pos.2 ≥ doorWPz e - 1/50 then { a1 with phase := .foyer, since := now }
    else a1
  | .foyer =>
    let baseStay := max 1 e.baseStaySec
    let maxWait := max 12 (baseStay * (1/2))
    let a1 : Agent :=
      if now - a.since > maxWait then { a with phase := .exit, since := now }
      else a
    let a2 : Agent := { a1 with target := (e.doorCX, foyerWPz e) }
    if a2.pos.2 ≥ foyerWPz e - 1/50 then
      { a2 with phase := if a2.seatId ≠ none then .toSeat else .foyer }
    else a2
  | .toSeat =>
    match a.seatId.bind (fun s => e.seats.find? (fun t => t.id == s)) with
    | none => { a with phase := .foyer, since := now }
    | some seat =>
      let dxap := o.ap.1 - a.pos.1
      let dzap := o.ap.2 - a.pos.2
      let nearAp := dxap * dxap + dzap * dzap < (11/50) * (11/50)
      let a1 : Agent := { a with target := if nearAp then (seat.x, seat.z) else o.ap }
      if nearAp then
        let dsx := seat.x - a.pos.1
        let dsz := seat.z - a.pos.2
        if dsx * dsx + dsz * dsz < (1/5) * (1/5) then
          let baseStay := max 1 e.baseStaySec
          let rawStay := baseStay * e.serviceCoef
          let capStay := max 0 e.timeCapSec
          let staySec := if e.timeLimitOn then min rawStay capStay else rawStay
          let a2 : Agent :=
            { a1 with
                pos := (seat.x, seat.z)
                vel := (0, 0)
                phase := .seated
                since := now
                leaveAt := now + max 5 staySec }
          if a2.wcPlanned then { a2 with wcPlanned := false, wcAt := 0 }
          else if o.u < 51/100 then
            if a2.leaveAt - now > 12 then
              { a2 with
                  wcPlanned := true
                  wcAt := clampQ (now + (a2.leaveAt - now) * (1/2)) (now + 5)
                    (a2.leaveAt - 12) }
            else a2
          else a2
        else a1
      else a1
  | .seated =>
    if a.wcPlanned ∧ now ≥ a.wcAt then { a with phase := .toiletGo, since := now }
    else if now ≥ a.leaveAt then { a with phase := .exit, since := now }
    else a
  | .toiletGo =>
    let a1 : Agent := { a with target := (e.toiletX, e.toiletZ) }
    let dx := e.toiletX - a.pos.1
    let dz := e.toiletZ - a.pos.2
    if dx * dx + dz * dz < (1/4) * (1/4) then
      { a1 with phase := .toiletUse, since := now }
    else a1
  | .toiletUse =>
    if now - a.since ≥ 10 then { a with phase := .toSeat, since := now } else a
  | .exit => { a with target := (e.doorCX, exitWPz e) }
  | .outside => a
  | .despawn => a

/-- The steering-integration stage (lines 1169–1338): skipped when the phase
logic left the agent `seated` or `toiletUse`; otherwise the oracle's
integrated position and velocity are adopted (that real-valued stage is
analysed for C1; its values are irrelevant to the phase and counter
bookkeeping). -/
def stepMoved (e : PeopleEnv) (now : ℚ) (o : CustOracle) (a : Agent) : Agent :=
  if (custPhaseLogic e now o a).phase ≠ .seated ∧
      (custPhaseLogic e now o a).phase ≠ .toiletUse then
    { custPhaseLogic e now o a with pos := o.movePos, vel := o.moveVel }
  else custPhaseLogic e now o a

/-- One customer agent's tick step (the loop body, lines 1062–1346):
`outside` agents only drift toward the off-stage point and are skipped by the
departure check (the `continue` at line 1068); every other agent runs the
phase logic and the steering stage, then the `exit → outside` departure check
(lines 1341–1346), whose increment of the departed counter is the second
component. -/
def stepCustomer (e : PeopleEnv) (now : ℚ) (o : CustOracle) (a : Agent) :
    Agent × ℕ :=
  if a.phase = .outside then
    ({ a with
        vel := (a.vel.1 * (9/10), a.vel.2 * (9/10)),
        pos := (clampQ a.pos.1 (e.doorCX - 7/20) (e.doorCX + 7/20),
                lerpQ a.pos.2 (outsideZ e) (3/50)) }, 0)
  else if (stepMoved e now o a).phase = .exit ∧
      (stepMoved e now o a).pos.2 ≤ e.inner.minZ - 9/10 then
    ({ stepMoved e now o a with
        phase := .outside
        vel := (0, 0)
        pos := ((stepMoved e now o a).pos.1, outsideZ e) }, 1)
  else (stepMoved e now o a, 0)

/-- The loop over the agent list, threading the per-agent oracle by index. -/
def stepAgents (e : PeopleEnv) (now : ℚ) (oracle : ℕ → CustOracle) :
    ℕ → List Agent → List (Agent × ℕ)
  | _, [] => []
  | i, a :: rest =>
    stepCustomer e now (oracle i) a :: stepAgents e now oracle (i + 1) rest

/-- Customer-side state: the agent list and the global departed counter. -/
structure PeopleState where
  agents : List Agent
  departed : ℕ
deriving DecidableEq

/-- The counter-relevant part of the customer tick: step every agent and add
each agent's departure increment to the counter, exactly as the in-place
`departedCount.current++` does. -/
def customerTick (e : PeopleEnv) (now : ℚ) (oracle : ℕ → CustOracle)
    (s : PeopleState) : PeopleState :=
  let stepped := stepAgents e now oracle 0 s.agents
  ⟨stepped.map (·.1), s.departed + (stepped.map (·.2)).sum⟩

/-- Number of agents that newly became `outside` this tick (position-aligned
between the pre- and post-tick agent lists). -/
def countNewOutside (pre post : List Agent) : ℕ :=
  ((pre.zip post).filter
    (fun p => decide (p.2.phase = .outside ∧ p.1.phase ≠ .outside))).length

theorem custPhaseLogic_ne_outside (e : PeopleEnv) (now : ℚ) (o : CustOracle)
    (a : Agent) (ha : a.phase ≠ .outside) :
    (custPhaseLogic e now o a).phase ≠ .outside := by
  cases hp : a.phase with
  | approachDoor =>
    simp only [custPhaseLogic, hp]
    split_ifs <;> simp [hp]
  | foyer =>
    simp only [custPhaseLogic, hp]
    split_ifs <;> simp [hp]
  | toSeat =>
    simp only [custPhaseLogic, hp]
    split
    · simp [hp]
    · split_ifs <;> simp [hp]
  | seated =>
    simp only [custPhaseLogic, hp]
    split_ifs <;> simp [hp]
  | toiletGo =>
    simp only [custPhaseLogic, hp]
    split_ifs <;> simp [hp]
  | toiletUse =>
    simp only [custPhaseLogic, hp]
    split_ifs <;> simp [hp]
  | exit =>
    simp only [custPhaseLogic, hp]
    simp [hp]
  | outside => exact absurd hp ha
  | despawn =>
    simp only [custPhaseLogic, hp]
    simp [hp]

theorem stepMoved_phase (e : PeopleEnv) (now : ℚ) (o : CustOracle) (a : Agent) :
    (stepMoved e now o a).phase = (custPhaseLogic e now o a).phase := by
  unfold stepMoved
  split_ifs <;> rfl

/-- Characterization of one step: the increment is 0 or 1; it is 1 exactly
when the agent newly becomes `outside`; and `outside` is absorbing. -/
theorem stepCustomer_count (e : PeopleEnv) (now : ℚ) (o : CustOracle)
    (a : Agent) :
    ((stepCustomer e now o a).2 = 1 ∨ (stepCustomer e now o a).2 = 0) ∧
    ((stepCustomer e now o a).2 = 1 ↔
      ((stepCustomer e now o a).1.phase = .outside ∧ a.phase ≠ .outside)) ∧
    (a.phase = .outside → (stepCustomer e now o a).1.phase = .outside) := by
  by_cases ha : a.phase = .outside
  · simp [stepCustomer, ha]
  · have hlog := custPhaseLogic_ne_outside e now o a ha
    have hmv : (stepMoved e now o a).phase ≠ .outside := by
      rw [stepMoved_phase]
      exact hlog
    rw [stepCustomer, if_neg ha]
    by_cases hdep : (stepMoved e now o a).phase = .exit ∧
        (stepMoved e now o a).pos.2 ≤ e.inner.minZ - 9/10
    · rw [if_pos hdep]
      exact ⟨Or.inl rfl, iff_of_true rfl ⟨rfl, ha⟩, fun h => absurd h ha⟩
    · rw [if_neg hdep]
      refine ⟨Or.inr rfl, iff_of_false (by simp) ?_, fun h => absurd h ha⟩
      rintro ⟨h1, _⟩
      exact hmv h1

theorem countNewOutside_cons (a b : Agent) (pre post : List Agent) :
    countNewOutside (a :: pre) (b :: post)
      = (if b.phase = .outside ∧ a.phase ≠ .outside then 1 else 0)
        + countNewOutside pre post := by
  simp only [countNewOutside, List.zip_cons_cons, List.filter_cons]
  by_cases hc : b.phase = .outside ∧ a.phase ≠ .outside
  · simp [hc]
    omega
  · simp [hc]

theorem stepAgents_spec (e : PeopleEnv) (now : ℚ) (oracle : ℕ → CustOracle) :
    ∀ (ags : List Agent) (i : ℕ),
      ((stepAgents e now oracle i ags).map (·.2)).sum
        = countNewOutside ags ((stepAgents e now oracle i ags).map (·.1)) ∧
      (∀ p ∈ ags.zip ((stepAgents e now oracle i ags).map (·.1)),
        p.1.phase = .outside → p.2.phase = .outside) := by
  intro ags
  induction ags with
  | nil => intro i; simp [stepAgents, countNewOutside]
  | cons a rest ih =>
    intro i
    have hstep := stepCustomer_count e now (oracle i) a
    have hone : (stepCustomer e now (oracle i) a).2
        = if ((stepCustomer e now (oracle i) a).1.phase = .outside ∧
            a.phase ≠ .outside) then 1 else 0 := by
      by_cases hc : (stepCustomer e now (oracle i) a).1.phase = .outside ∧
          a.phase ≠ .outside
      · rw [if_pos hc]
        exact hstep.2.1.mpr hc
      · rw [if_neg hc]
        rcases hstep.1 with h1 | h0
        · exact absurd (hstep.2.1.mp h1) hc
        · exact h0
    constructor
    · simp only [stepAgents, List.map_cons, List.sum_cons,
        countNewOutside_cons, hone, (ih (i + 1)).1]
    · intro p hp hout
      simp only [stepAgents, List.map_cons, List.zip_cons_cons,
        List.mem_cons] at hp
      rcases hp with rfl | hp
      · exact hstep.2.2 hout
      · exact (ih (i + 1)).2 p hp hout

/-- **C8.** Over the customer tick: the global departed counter never
decreases; it increases by exactly the number of agents that transition into
the `outside` phase this tick (each such transition contributes exactly 1,
via the `exit → outside` check); and the `outside` phase is absorbing, so an
agent that has been counted can never re-enter `exit` and is counted at most
once over the whole run. -/
theorem departed_counter_exact (e : PeopleEnv) (now : ℚ)
    (oracle : ℕ → CustOracle) (s : PeopleState) :
    s.departed ≤ (customerTick e now oracle s).departed ∧
    (customerTick e now oracle s).departed
      = s.departed + countNewOutside s.agents (customerTick e now oracle s).agents ∧
    ∀ p ∈ s.agents.zip (customerTick e now oracle s).agents,
      p.1.phase = .outside → p.2.phase = .outside := by
  have h := stepAgents_spec e now oracle s.agents 0
  simp only [customerTick]
  exact ⟨Nat.le_add_right _ _, by rw [h.1], h.2⟩

/-- Concrete environment for the C8 witness. -/
def demoPEnv : PeopleEnv :=
  ⟨⟨-3, 3, -3, 3⟩, 0, 70, false, 90, 1, 2, 2, []⟩

/-- Oracle whose steering step lands the agent past the departure line. -/
def demoCOracle : CustOracle := ⟨(0, -4), (0, 0), (0, 0), 0⟩

/-- An exiting customer just inside the door. -/
def demoExitAgent : Agent :=
  ⟨1, (0, -3), (0, 0), 0, .exit, (0, 0), none, 0, 0, 0, false, 0⟩

/-- A customer already outside. -/
def demoOutsideAgent : Agent :=
  ⟨2, (0, -4), (0, 0), 0, .outside, (0, 0), none, 0, 0, 0, false, 0⟩

/-- Pre-tick customer state for the C8 witness. -/
def demoPState : PeopleState := ⟨[demoExitAgent, demoOutsideAgent], 5⟩

theorem departed_counter_exact_witness :
    demoPState.departed
      ≤ (customerTick demoPEnv 0 (fun _ => demoCOracle) demoPState).departed ∧
    (customerTick demoPEnv 0 (fun _ => demoCOracle) demoPState).departed
      = demoPState.departed + countNewOutside demoPState.agents
          (customerTick demoPEnv 0 (fun _ => demoCOracle) demoPState).agents ∧
    (stepCustomer demoPEnv 0 demoCOracle demoOutsideAgent).1.phase = .outside := by
  have h := departed_counter_exact demoPEnv 0 (fun _ => demoCOracle) demoPState
  refine ⟨h.1, h.2.1, ?_⟩
  refine h.2.2
    (demoOutsideAgent, (stepCustomer demoPEnv 0 demoCOracle demoOutsideAgent).1)
    ?_ rfl
  show _ ∈ [(demoExitAgent, (stepCustomer demoPEnv 0 demoCOracle demoExitAgent).1),
    (demoOutsideAgent, (stepCustomer demoPEnv 0 demoCOracle demoOutsideAgent).1)]
  exact List.mem_cons_of_mem _ (List.mem_cons_self _ _)

/-! ## End-of-tick position: wall clamp and hard obstacle correction (C1)

The tail of the customer movement step (lines 1306–1338 of `People`), over
`ℝ` because the hard correction divides by `Math.hypot` distances.  The
post-force velocity entering this stage is speed-capped to 1.25 (lines
1300–1304) but otherwise arbitrary; it is a parameter here. -/

noncomputable section

/-- `clamp` over `ℝ`. -/
def clampR (v lo hi : ℝ) : ℝ := min (max v lo) hi

/-- Inner walkable bounds over `ℝ`. -/
structure InnerR where
  minX : ℝ
  maxX : ℝ
  minZ : ℝ
  maxZ : ℝ

/-- Customer body radius `R = max(BODY_R, HEAD_R) + 0.02` (lines 848–851). -/
def PERSON_R : ℝ := 0.18

/-- `inner` of `People` (lines 856–864): the room interior shrunk by the wall
thickness and the agent radius plus 0.005. -/
def innerOfCfg (width depth wallT : ℝ) : InnerR where
  minX := -(width / 2) + wallT + (PERSON_R + 0.005)
  maxX := width / 2 - wallT - (PERSON_R + 0.005)
  minZ := -(depth / 2) + wallT + (PERSON_R + 0.005)
  maxZ := depth / 2 - wallT - (PERSON_R + 0.005)

/-- A circular obstacle (tables plus seated customers). -/
structure CircleR where
  x : ℝ
  z : ℝ
  r : ℝ

/-- The wall-clamp stage (lines 1306–1317): integrate the velocity, clamp x
into the inner bounds (and into the door tunnel for `exit`/`approachDoor`),
clamp z (allowing `exit` agents down to `minZ - 1.6`), and forbid `exit`
agents from moving north. -/
def wallClampedPos (phase : CPhase) (inner : InnerR) (doorCX tunnelHalf : ℝ)
    (pos vel : ℝ × ℝ) (d : ℝ) : ℝ × ℝ :=
  let nextX := pos.1 + vel.1 * d
  let nextZ := pos.2 + vel.2 * d
  let minZForPhase := if phase = .exit then inner.minZ - 1.6 else inner.minZ
  let nx0 := clampR nextX inner.minX inner.maxX
  let nx :=
    if phase = .exit ∨ phase = .approachDoor then
      clampR nx0 (doorCX - (tunnelHalf + 0.02)) (doorCX + (tunnelHalf + 0.02))
    else nx0
  let nz0 := clampR nextZ minZForPhase inner.maxZ
  let nz := if phase = .exit ∧ nz0 > pos.2 then pos.2 else nz0
  (nx, nz)

/-- The condition under which the hard correction fires for one obstacle. -/
def hardHit (R : ℝ) (p : ℝ × ℝ) (o : CircleR) : Prop :=
  Real.sqrt ((p.1 - o.x) ^ 2 + (p.2 - o.z) ^ 2) < o.r + R + 0.08

open scoped Classical in
/-- One hard-collision correction (lines 1322–1338): a positional push along
the separating normal out of the obstacle's hard radius.  `(ox || 1e-6)`
models JavaScript's falsy fallback on a zero component; the tangential
velocity adjustment of lines 1333–1336 does not affect any position within
the same tick and is omitted here. -/
def hardCorrectOne (R : ℝ) (p : ℝ × ℝ) (o : CircleR) : ℝ × ℝ :=
  if hardHit R p o then
    let ox := p.1 - o.x
    let oz := p.2 - o.z
    let dd := Real.sqrt (ox ^ 2 + oz ^ 2)
    let hardR := o.r + R + 0.08
    let nx2 := (if ox = 0 then 1e-6 else ox) / dd
    let nz2 := (if oz = 0 then 1e-6 else oz) / dd
    let push := hardR - dd + 1e-3
    (p.1 + nx2 * push * (1 + 0.25), p.2 + nz2 * push * (1 + 0.25))
  else p

/-- The hard-correction sweep over the obstacle list (lines 1322–1338). -/
def hardCorrectAll (R : ℝ) (circles : List CircleR) (p : ℝ × ℝ) : ℝ × ℝ :=
  circles.foldl (hardCorrectOne R) p

/-- End-of-tick position of a moving customer agent (lines 1306–1338): the
wall clamp followed by the hard obstacle correction. -/
def endOfTickPos (phase : CPhase) (inner : InnerR) (doorCX tunnelHalf : ℝ)
    (circles : List CircleR) (pos vel : ℝ × ℝ) (d : ℝ) : ℝ × ℝ :=
  hardCorrectAll PERSON_R circles
    (wallClampedPos phase inner doorCX tunnelHalf pos vel d)

theorem hardCorrectAll_of_free (R : ℝ) :
    ∀ (circles : List CircleR) (p : ℝ × ℝ),
      (∀ o ∈ circles, ¬ hardHit R p o) → hardCorrectAll R circles p = p := by
  intro circles
  induction circles with
  | nil => intro p _; rfl
  | cons o rest ih =>
    intro p hfree
    have hone : hardCorrectOne R p o = p := by
      rw [hardCorrectOne, if_neg (hfree o (List.mem_cons_self _ _))]
    unfold hardCorrectAll at ih ⊢
    rw [List.foldl_cons, hone]
    exact ih p (fun o' ho' => hfree o' (List.mem_cons_of_mem _ ho'))

theorem clampR_mem (v lo hi : ℝ) (h : lo ≤ hi) :
    lo ≤ clampR v lo hi ∧ clampR v lo hi ≤ hi := by
  unfold clampR
  exact ⟨le_min (le_max_right v lo) h, min_le_right _ _⟩

theorem clampR_le (v lo hi : ℝ) : clampR v lo hi ≤ hi :=
  min_le_right _ _

theorem wallClampedPos_fst (phase : CPhase) (inner : InnerR)
    (doorCX tunnelHalf : ℝ) (pos vel : ℝ × ℝ) (d : ℝ) :
    (wallClampedPos phase inner doorCX tunnelHalf pos vel d).1
      = (if phase = .exit ∨ phase = .approachDoor then
          clampR (clampR (pos.1 + vel.1 * d) inner.minX inner.maxX)
            (doorCX - (tunnelHalf + 0.02)) (doorCX + (tunnelHalf + 0.02))
        else clampR (pos.1 + vel.1 * d) inner.minX inner.maxX) := rfl

theorem wallClampedPos_snd (phase : CPhase) (inner : InnerR)
    (doorCX tunnelHalf : ℝ) (pos vel : ℝ × ℝ) (d : ℝ) :
    (wallClampedPos phase inner doorCX tunnelHalf pos vel d).2
      = (if phase = .exit ∧
            clampR (pos.2 + vel.2 * d)
              (if phase = .exit then inner.minZ - 1.6 else inner.minZ)
              inner.maxZ > pos.2
         then pos.2
         else
           clampR (pos.2 + vel.2 * d)
             (if phase = .exit then inner.minZ - 1.6 else inner.minZ)
             inner.maxZ) := rfl

/-- **C1 (amended).** At the end of a tick, **provided** no obstacle's hard
radius covers the wall-clamped position (the hard correction is then the
identity), every customer agent's position respects exactly the bounds the
wall-clamp stage enforces: its x lies within the inner x-bounds except in
the `approachDoor`/`exit` phases, where it is instead confined to the door
tunnel `[doorCX - (tunnelHalf + 0.02), doorCX + (tunnelHalf + 0.02)]` (an
interval that need not lie inside the inner x-bounds); its z lies within
`[inner.minZ, inner.maxZ]` except in the `exit` phase, where the lower
bound is `min (inner.minZ - 1.6) pos.z` (the door descent combined with the
no-northward rule of line 1317) and the upper bound `inner.maxZ` still
holds.  (The unamended claim — inner bounds at the end of *every* tick —
fails: the hard obstacle correction runs *after* the wall clamp and can
push the agent beyond the walls, see the counterexample.) -/
theorem c1_bounds_without_overlap (phase : CPhase) (inner : InnerR)
    (doorCX tunnelHalf : ℝ) (circles : List CircleR) (pos vel : ℝ × ℝ) (d : ℝ)
    (hx : inner.minX ≤ inner.maxX) (hz : inner.minZ ≤ inner.maxZ)
    (ht : 0 ≤ tunnelHalf)
    (hfree : ∀ o ∈ circles,
      ¬ hardHit PERSON_R (wallClampedPos phase inner doorCX tunnelHalf pos vel d) o) :
    (¬(phase = .exit ∨ phase = .approachDoor) →
      inner.minX ≤ (endOfTickPos phase inner doorCX tunnelHalf circles pos vel d).1 ∧
      (endOfTickPos phase inner doorCX tunnelHalf circles pos vel d).1 ≤ inner.maxX) ∧
    ((phase = .exit ∨ phase = .approachDoor) →
      doorCX - (tunnelHalf + 0.02)
          ≤ (endOfTickPos phase inner doorCX tunnelHalf circles pos vel d).1 ∧
      (endOfTickPos phase inner doorCX tunnelHalf circles pos vel d).1
          ≤ doorCX + (tunnelHalf + 0.02)) ∧
    (phase ≠ .exit →
      inner.minZ ≤ (endOfTickPos phase inner doorCX tunnelHalf circles pos vel d).2) ∧
    (phase = .exit →
      min (inner.minZ - 1.6) pos.2
          ≤ (endOfTickPos phase inner doorCX tunnelHalf circles pos vel d).2) ∧
    (endOfTickPos phase inner doorCX tunnelHalf circles pos vel d).2 ≤ inner.maxZ := by
  have hfold : endOfTickPos phase inner doorCX tunnelHalf circles pos vel d
      = wallClampedPos phase inner doorCX tunnelHalf pos vel d := by
    unfold endOfTickPos
    exact hardCorrectAll_of_free _ _ _ hfree
  rw [hfold, wallClampedPos_fst, wallClampedPos_snd]
  have htun : doorCX - (tunnelHalf + 0.02) ≤ doorCX + (tunnelHalf + 0.02) := by
    linarith
  have hzlo : inner.minZ - 1.6 ≤ inner.maxZ := by linarith
  refine ⟨?_, ?_, ?_, ?_, ?_⟩
  · intro hnd
    rw [if_neg hnd]
    exact clampR_mem _ _ _ hx
  · intro hd
    rw [if_pos hd]
    exact clampR_mem _ _ _ htun
  · intro hne
    rw [if_neg (by
      rintro ⟨h, _⟩
      exact hne h : ¬(phase = CPhase.exit ∧
        clampR (pos.2 + vel.2 * d)
          (if phase = CPhase.exit then inner.minZ - 1.6 else inner.minZ)
          inner.maxZ > pos.2)), if_neg hne]
    exact (clampR_mem _ _ _ hz).1
  · intro hex
    subst hex
    rw [if_pos (rfl : CPhase.exit = CPhase.exit)]
    by_cases hgt : clampR (pos.2 + vel.2 * d) (inner.minZ - 1.6) inner.maxZ > pos.2
    · rw [if_pos ⟨rfl, hgt⟩]
      exact min_le_right _ _
    · rw [if_neg (by
        rintro ⟨_, h⟩
        exact hgt h : ¬(CPhase.exit = CPhase.exit ∧
          clampR (pos.2 + vel.2 * d) (inner.minZ - 1.6) inner.maxZ > pos.2))]
      exact le_trans (min_le_left _ _) (clampR_mem _ _ _ hzlo).1
  · by_cases hc : phase = CPhase.exit ∧
        clampR (pos.2 + vel.2 * d)
          (if phase = CPhase.exit then inner.minZ - 1.6 else inner.minZ)
          inner.maxZ > pos.2
    · rw [if_pos hc]
      exact le_trans (le_of_lt hc.2) (clampR_le _ _ _)
    · rw [if_neg hc]
      exact clampR_le _ _ _

theorem c1_bounds_without_overlap_witness :
    ((0 : ℝ) - (0.37 + 0.02)
        ≤ (endOfTickPos .approachDoor (innerOfCfg 8 10 0.2) 0 0.37 []
            (0, 0) (0, 0) 0.016).1 ∧
      (endOfTickPos .approachDoor (innerOfCfg 8 10 0.2) 0 0.37 []
            (0, 0) (0, 0) 0.016).1 ≤ (0 : ℝ) + (0.37 + 0.02)) ∧
    (innerOfCfg 8 10 0.2).minZ
        ≤ (endOfTickPos .approachDoor (innerOfCfg 8 10 0.2) 0 0.37 []
            (0, 0) (0, 0) 0.016).2 ∧
    (endOfTickPos .approachDoor (innerOfCfg 8 10 0.2) 0 0.37 []
        (0, 0) (0, 0) 0.016).2 ≤ (innerOfCfg 8 10 0.2).maxZ := by
  have h := c1_bounds_without_overlap .approachDoor (innerOfCfg 8 10 0.2) 0 0.37 []
    (0, 0) (0, 0) 0.016
    (by norm_num [innerOfCfg, PERSON_R])
    (by norm_num [innerOfCfg, PERSON_R])
    (by norm_num)
    (by simp)
  exact ⟨h.2.1 (Or.inr rfl), h.2.2.1 (by simp), h.2.2.2.2⟩

/-- **C1 counterexample.** With the default room (width 8, depth 10, wall
0.2, so `inner.maxZ = 4.615`), a `foyer` agent resting against the north
wall at `(0, 4.615)` with zero velocity, and a table obstacle of radius 0.5
at `(0, 4.115)` (hard radius `0.76 > 0.5`), the wall clamp leaves the
position at the wall but the hard correction then pushes the agent to
`z = 4.94125 > inner.maxZ`: the agent ends the tick beyond the north wall
while in a non-exempt phase, refuting the claimed end-of-tick bound. -/
theorem c1_hard_push_counterexample :
    (endOfTickPos .foyer (innerOfCfg 8 10 0.2) 0 0.37 [⟨0, 4.115, 0.5⟩]
        (0, 4.615) (0, 0) 0.016).2 > (innerOfCfg 8 10 0.2).maxZ := by
  have hmaxZ : (innerOfCfg 8 10 0.2).maxZ = 4.615 := by
    norm_num [innerOfCfg, PERSON_R]
  have hclamp : wallClampedPos .foyer (innerOfCfg 8 10 0.2) 0 0.37
      (0, 4.615) (0, 0) 0.016 = (0, 4.615) := by
    unfold wallClampedPos clampR
    norm_num [innerOfCfg, PERSON_R]
  have hsqrt : Real.sqrt (((0 : ℝ) - 0) ^ 2 + (4.615 - 4.115) ^ 2) = 0.5 := by
    rw [show ((0 : ℝ) - 0) ^ 2 + (4.615 - 4.115) ^ 2 = 0.5 ^ 2 by norm_num,
      Real.sqrt_sq (by norm_num : (0 : ℝ) ≤ 0.5)]
  have hhit : hardHit PERSON_R ((0 : ℝ), (4.615 : ℝ)) ⟨0, 4.115, 0.5⟩ := by
    rw [hardHit]
    dsimp only
    rw [hsqrt]
    norm_num [PERSON_R]
  have hcorr : (hardCorrectAll PERSON_R [⟨0, 4.115, 0.5⟩] (0, 4.615)).2
      = 4.94125 := by
    unfold hardCorrectAll
    rw [List.foldl_cons, List.foldl_nil, hardCorrectOne, if_pos hhit]
    dsimp only
    rw [hsqrt]
    norm_num [PERSON_R]
  unfold endOfTickPos
  rw [hclamp, hmaxZ, hcorr]
  norm_num

end

end Helios
